import Mathlib

/-!
Verification development for the libpff item tree subsystem
(src/libpff/libpff_item_tree.c).

The item tree builder converts an on-disk descriptor B-tree (accessed
through a lazy cursor) into an in-memory tree rooted at a synthetic
descriptor 0, collecting orphans and detecting the self-parented root
folder.  This file gives a shallow embedding of that code and proves
properties about it.

Modelling conventions:
* C `int recursion_depth` counters with the bound
  `LIBPFF_MAXIMUM_ITEM_TREE_RECURSION_DEPTH` are either kept as an
  explicit `depth : Nat` argument (navigation) or, in the mutually
  recursive builder, replaced by the complementary `fuel` argument with
  `fuel = LIBPFF_MAXIMUM_ITEM_TREE_RECURSION_DEPTH + 1 - depth`, so that
  the C entry check `recursion_depth > LIBPFF_MAXIMUM_ITEM_TREE_RECURSION_DEPTH`
  becomes `fuel = 0`.
* C out-parameters of type `libcdata_tree_node_t **` (which can be a NULL
  pointer, a pointer to NULL, or a pointer to an already-set node) are
  modelled by the `Slot` type.
* Fallible cursor calls return `Except PffError`; error injection points
  of the external cursor are explicit flags on the modelled index nodes.
* Machine integers are `Nat`; the only overflow-relevant check in the
  source, `identifier > UINT32_MAX`, is kept explicitly.
-/

namespace LibPff

/-- Modelled from the spec: the recursion bound constant
`LIBPFF_MAXIMUM_ITEM_TREE_RECURSION_DEPTH` lives in libpff_definitions.h,
which is not part of the sources; the spec fixes it at 256. -/
def LIBPFF_MAXIMUM_ITEM_TREE_RECURSION_DEPTH : Nat := 256

/-- The largest 32-bit unsigned value, used by the source check
`descriptor_index_value->identifier > (uint64_t) UINT32_MAX`. -/
def UINT32_MAX : Nat := 4294967295

/-- Error kinds raised by the embedded code.  `cursorIo` stands for any
error coming out of the external cursor (libfdata/libbfio); the other
constructors mirror the libcerror argument/runtime error kinds set in
libpff_item_tree.c. -/
inductive PffError where
  | invalidArgument
  | outOfBounds
  | valueExceedsMaximum
  | valueAlreadySet
  | valueMissing
  | cursorIo
  | getFailed
deriving DecidableEq

/-- The item descriptor payload carried by every item tree node
(libpff_item_descriptor.h: descriptor_identifier, data_identifier,
local_descriptors_identifier, recovered). -/
structure ItemDescriptor where
  descriptor_identifier : Nat
  data_identifier : Nat
  local_descriptors_identifier : Nat
  recovered : Bool
deriving DecidableEq

/-- An in-memory item tree node (libcdata_tree_node_t holding a
libpff_item_descriptor_t value and an ordered list of sub nodes). -/
inductive TreeNode where
  | node (value : ItemDescriptor) (sub_nodes : List TreeNode)

/-- The item descriptor stored in a tree node. -/
def TreeNode.value : TreeNode → ItemDescriptor
  | .node v _ => v

/-- The ordered child list of a tree node. -/
def TreeNode.sub_nodes : TreeNode → List TreeNode
  | .node _ s => s


/-- The mutable state threaded through a build:
the item tree under construction (rooted at the synthetic descriptor-0
node), the root folder handle (`*root_folder_item_tree_node`), and the
orphan node list. -/
structure BuildState where
  tree : TreeNode
  root_folder : Option ItemDescriptor
  orphans : List TreeNode

/-- A descriptor index value as returned by the cursor
(libpff_index_value_t: identifier is 64-bit on disk, parent_identifier
32-bit). -/
structure IndexValue where
  identifier : Nat
  parent_identifier : Nat
  data_identifier : Nat
  local_descriptors_identifier : Nat
deriving DecidableEq

/-- The observable data of one on-disk descriptor index tree node,
together with explicit error-injection flags for each fallible cursor
call on it (`num_err` makes `get_number_of_sub_nodes` fail, `del_err`
makes `is_deleted` fail, `leaf_err` makes `is_leaf` fail, `val_err`
makes `get_node_value` fail, and `sub_errs` lists the child indices for
which `get_sub_node_by_index` fails). -/
structure IdxData where
  num_err : Bool
  del_err : Bool
  deleted : Bool
  leaf_err : Bool
  leaf : Bool
  val_err : Bool
  value : IndexValue
  sub_errs : List Nat

/-- An on-disk descriptor index tree node with its sub nodes. -/
inductive IdxNode where
  | node (data : IdxData) (sub_nodes : List IdxNode)

/-- The data of an index node. -/
def IdxNode.data : IdxNode → IdxData
  | .node d _ => d

/-- The sub nodes of an index node. -/
def IdxNode.sub_nodes : IdxNode → List IdxNode
  | .node _ s => s


/-- The descriptor index as seen by the builder: the index tree root plus
the identifiers for which `lookup_leaf_by_identifier` raises an I/O
error. -/
structure Cursor where
  root : IdxNode
  lookup_err_ids : List Nat

/-- Modelled from the spec: cursor contract
`number_of_sub_nodes(node) -> int | IoError`
(libfdata_tree_node_get_number_of_sub_nodes is external). -/
def libfdata_tree_node_get_number_of_sub_nodes (n : IdxNode) : Except PffError Nat :=
  if n.data.num_err then .error .cursorIo else .ok n.sub_nodes.length

/-- Modelled from the spec: cursor contract
`is_deleted(node) -> bool | IoError`. -/
def libfdata_tree_node_is_deleted (n : IdxNode) : Except PffError Bool :=
  if n.data.del_err then .error .cursorIo else .ok n.data.deleted

/-- Modelled from the spec: cursor contract
`is_leaf(node) -> bool | IoError`. -/
def libfdata_tree_node_is_leaf (n : IdxNode) : Except PffError Bool :=
  if n.data.leaf_err then .error .cursorIo else .ok n.data.leaf

/-- Modelled from the spec: cursor contract
`node_value(node) -> IndexValue | IoError`.  The builder copies the
needed fields out before the next cursor call; the model returns the
value directly. -/
def libfdata_tree_node_get_node_value (n : IdxNode) : Except PffError IndexValue :=
  if n.data.val_err then .error .cursorIo else .ok n.data.value

/-- Modelled from the spec: cursor contract
`sub_node_by_index(node, i) -> handle | OutOfBounds | IoError`. -/
def libfdata_tree_node_get_sub_node_by_index (n : IdxNode) (i : Nat) :
    Except PffError IdxNode :=
  if i ∈ n.data.sub_errs then .error .cursorIo
  else match n.sub_nodes.get? i with
       | some c => .ok c
       | none => .error .getFailed

mutual

/-- Modelled from the spec: the read-ahead lookup
`lookup_leaf_by_identifier(id) -> Option<node_handle> | IoError`
(libpff_index_tree_get_leaf_node_by_identifier is not part of the
sources).  It locates the leaf node of the on-disk index carrying the
given identifier; the model searches in pre-order. -/
def index_tree_find_leaf (id : Nat) : IdxNode → Option IdxNode
  | .node d cs =>
      if d.leaf && d.value.identifier == id then some (.node d cs)
      else index_tree_find_leaf_list id cs

/-- Pre-order leaf lookup over a list of index sub nodes. -/
def index_tree_find_leaf_list (id : Nat) : List IdxNode → Option IdxNode
  | [] => none
  | c :: cs =>
      match index_tree_find_leaf id c with
      | some r => some r
      | none => index_tree_find_leaf_list id cs

end

/-- Modelled from the spec: `lookup_leaf_by_identifier` with its I/O
error channel; errors are injected through `Cursor.lookup_err_ids`. -/
def libpff_index_tree_get_leaf_node_by_identifier (cur : Cursor) (id : Nat) :
    Except PffError (Option IdxNode) :=
  if id ∈ cur.lookup_err_ids then .error .cursorIo
  else .ok (index_tree_find_leaf id cur.root)

/-- Modelled from the spec: sorted-unique insertion of a descriptor as a
new childless node into a child list, i.e. `libcdata_tree_node_insert_node`
/ `libcdata_tree_node_insert_value` with `LIBCDATA_INSERT_FLAG_UNIQUE_ENTRIES`
and the comparison `libpff_item_descriptor_compare` =
sign(a.descriptor_id - b.descriptor_id) (both are outside the sources;
the spec specifies scan-insert-before-first-greater with duplicate
rejection).  `none` models the insert returning 0 (duplicate value,
nothing inserted). -/
def insert_sorted_unique (d : ItemDescriptor) : List TreeNode → Option (List TreeNode)
  | [] => some [TreeNode.node d []]
  | c :: cs =>
      if d.descriptor_identifier < c.value.descriptor_identifier then
        some (TreeNode.node d [] :: c :: cs)
      else if d.descriptor_identifier = c.value.descriptor_identifier then
        none
      else
        (insert_sorted_unique d cs).map (fun cs' => c :: cs')

/-- The item descriptor the builder constructs from a leaf index value
(libpff_item_descriptor_initialize with recovered = 0, after the
uint32 cast made valid by the preceding range check). -/
def item_descriptor_of_value (v : IndexValue) : ItemDescriptor :=
  ⟨v.identifier, v.data_identifier, v.local_descriptors_identifier, false⟩

mutual

/-- The source's `libpff_item_tree_get_tree_node_by_identifier` search
(starting depth 0, depth check at each entry, first-match pre-order)
fused with the `libcdata_tree_node_insert_value` performed at the found
parent node, since the C code inserts through the pointer returned by
the search.  Result: `.ok none` = parent not found (search returned 0);
`.ok (some none)` = parent found but the value was a duplicate (insert
returned 0, tree unchanged); `.ok (some (some t'))` = inserted, updated
tree. -/
def find_insert_node (pid : Nat) (d : ItemDescriptor) (t : TreeNode) (depth : Nat) :
    Except PffError (Option (Option TreeNode)) :=
  if LIBPFF_MAXIMUM_ITEM_TREE_RECURSION_DEPTH < depth then .error .outOfBounds
  else if t.value.descriptor_identifier = pid then
    match insert_sorted_unique d t.sub_nodes with
    | some cs' => .ok (some (some (TreeNode.node t.value cs')))
    | none => .ok (some none)
  else
    match find_insert_list pid d t.sub_nodes (depth + 1) with
    | .error e => .error e
    | .ok none => .ok none
    | .ok (some none) => .ok (some none)
    | .ok (some (some cs')) => .ok (some (some (TreeNode.node t.value cs')))
termination_by (LIBPFF_MAXIMUM_ITEM_TREE_RECURSION_DEPTH + 1 - depth, 0, 0)

/-- The sub-node loop of the fused search-and-insert: tries each child in
order, stopping at the first one whose subtree contains the parent. -/
def find_insert_list (pid : Nat) (d : ItemDescriptor) (l : List TreeNode) (depth : Nat) :
    Except PffError (Option (Option (List TreeNode))) :=
  match l with
  | [] => .ok none
  | c :: cs =>
      match find_insert_node pid d c depth with
      | .error e => .error e
      | .ok (some none) => .ok (some none)
      | .ok (some (some c')) => .ok (some (some (c' :: cs)))
      | .ok none =>
          match find_insert_list pid d cs depth with
          | .error e => .error e
          | .ok none => .ok none
          | .ok (some none) => .ok (some none)
          | .ok (some (some cs')) => .ok (some (some (c :: cs')))
termination_by (LIBPFF_MAXIMUM_ITEM_TREE_RECURSION_DEPTH + 1 - depth, 1, l.length)

end

mutual

/-- `libpff_item_tree_create_leaf_node`: processes one leaf of the
descriptor index.  `fuel = LIBPFF_MAXIMUM_ITEM_TREE_RECURSION_DEPTH + 1 -
recursion_depth`, so `fuel = 0` is exactly the C entry check
`recursion_depth > LIBPFF_MAXIMUM_ITEM_TREE_RECURSION_DEPTH`.
Reads the leaf value, range-checks the identifier, builds the item
descriptor; a self-parented leaf becomes the root folder (error if the
root folder handle is already set, silent drop if an equal child already
sits under the synthetic root); otherwise the parent is searched in the
tree, with cursor read-ahead (and a recursive build of the parent's
subtree at depth + 1) on a miss, and a still-missing parent makes the
leaf an orphan. -/
def libpff_item_tree_create_leaf_node (cur : Cursor) (fuel : Nat) (n : IdxNode)
    (st : BuildState) : Except PffError BuildState :=
  if fuel = 0 then .error .outOfBounds
  else
    match libfdata_tree_node_get_node_value n with
    | .error e => .error e
    | .ok v =>
      if UINT32_MAX < v.identifier then .error .valueExceedsMaximum
      else
        let d := item_descriptor_of_value v
        if v.identifier = v.parent_identifier then
          match st.root_folder with
          | some _ => .error .valueAlreadySet
          | none =>
            match insert_sorted_unique d st.tree.sub_nodes with
            | some cs => .ok ⟨TreeNode.node st.tree.value cs, some d, st.orphans⟩
            | none => .ok st
        else
          match find_insert_node v.parent_identifier d st.tree 0 with
          | .error e => .error e
          | .ok (some (some t')) => .ok ⟨t', st.root_folder, st.orphans⟩
          | .ok (some none) => .ok st
          | .ok none =>
            match libpff_index_tree_get_leaf_node_by_identifier cur v.parent_identifier with
            | .error e => .error e
            | .ok none => .ok ⟨st.tree, st.root_folder, st.orphans ++ [TreeNode.node d []]⟩
            | .ok (some pn) =>
              match libpff_item_tree_create_node cur (fuel - 1) pn st with
              | .error e => .error e
              | .ok st' =>
                match find_insert_node v.parent_identifier d st'.tree 0 with
                | .error e => .error e
                | .ok (some (some t')) => .ok ⟨t', st'.root_folder, st'.orphans⟩
                | .ok (some none) => .ok st'
                | .ok none =>
                    .ok ⟨st'.tree, st'.root_folder, st'.orphans ++ [TreeNode.node d []]⟩
termination_by (fuel, 0, 0)

/-- `libpff_item_tree_create_node`: processes one node of the descriptor
index (same `fuel` convention).  A failing `number_of_sub_nodes` probe is
swallowed (the error is freed and the subtree skipped, `TODO flag corrupt
item tree` in the source); deleted nodes are skipped; leaves go to
`libpff_item_tree_create_leaf_node` at the same depth; other nodes are
recursed into child by child at depth + 1. -/
def libpff_item_tree_create_node (cur : Cursor) (fuel : Nat) (n : IdxNode)
    (st : BuildState) : Except PffError BuildState :=
  if fuel = 0 then .error .outOfBounds
  else
    match libfdata_tree_node_get_number_of_sub_nodes n with
    | .error _ => .ok st
    | .ok number_of_sub_nodes =>
      match libfdata_tree_node_is_deleted n with
      | .error e => .error e
      | .ok true => .ok st
      | .ok false =>
        match libfdata_tree_node_is_leaf n with
        | .error e => .error e
        | .ok true => libpff_item_tree_create_leaf_node cur fuel n st
        | .ok false =>
            libpff_item_tree_create_sub_nodes cur (fuel - 1) n number_of_sub_nodes 0 st
termination_by (fuel, 1, 0)

/-- The `for sub_node_index` loop of `libpff_item_tree_create_node`:
fetches each sub node by index and recurses into it (the `fuel` passed
here is already decremented, matching `recursion_depth + 1` at the call
sites). -/
def libpff_item_tree_create_sub_nodes (cur : Cursor) (fuel : Nat) (n : IdxNode)
    (remaining : Nat) (idx : Nat) (st : BuildState) : Except PffError BuildState :=
  match remaining with
  | 0 => .ok st
  | r + 1 =>
      match libfdata_tree_node_get_sub_node_by_index n idx with
      | .error e => .error e
      | .ok c =>
          match libpff_item_tree_create_node cur fuel c st with
          | .error e => .error e
          | .ok st' => libpff_item_tree_create_sub_nodes cur fuel n r (idx + 1) st'
termination_by (fuel, 2, remaining)

end

/-- `libpff_item_tree_create`: builds the item tree from the descriptor
index.  Creates the synthetic root node with descriptor 0 and runs
`libpff_item_tree_create_node` on the index root at depth 0
(`fuel = LIBPFF_MAXIMUM_ITEM_TREE_RECURSION_DEPTH + 1`). -/
def libpff_item_tree_create (cur : Cursor) : Except PffError BuildState :=
  libpff_item_tree_create_node cur (LIBPFF_MAXIMUM_ITEM_TREE_RECURSION_DEPTH + 1) cur.root
    ⟨TreeNode.node ⟨0, 0, 0, false⟩ [], none, []⟩

/-- The three states of a C `libcdata_tree_node_t **` out-parameter:
a NULL pointer, a pointer to NULL (valid, unset), or a pointer to an
already-set node. -/
inductive Slot where
  | null
  | unset
  | set (t : TreeNode)

mutual

/-- `libpff_item_tree_get_tree_node_by_identifier` on a non-null node:
depth check at entry; if this node's descriptor matches, the out-slot is
validated (invalid if NULL, already-set error if non-empty) and filled;
otherwise the sub nodes are searched in order at depth + 1.  Returns
`(found?, slot)`, mirroring the C return of 1/0 plus the out-parameter. -/
def item_tree_node_search (t : TreeNode) (id : Nat) (slot : Slot) (depth : Nat) :
    Except PffError (Bool × Slot) :=
  if LIBPFF_MAXIMUM_ITEM_TREE_RECURSION_DEPTH < depth then .error .outOfBounds
  else if t.value.descriptor_identifier = id then
    match slot with
    | .null => .error .invalidArgument
    | .set _ => .error .valueAlreadySet
    | .unset => .ok (true, .set t)
  else
    item_tree_node_search_list t.sub_nodes id slot (depth + 1)
termination_by (LIBPFF_MAXIMUM_ITEM_TREE_RECURSION_DEPTH + 1 - depth, 0, 0)

/-- The sub-node loop of `libpff_item_tree_get_tree_node_by_identifier`:
traverses the sub nodes in order, stopping at the first hit. -/
def item_tree_node_search_list (l : List TreeNode) (id : Nat) (slot : Slot) (depth : Nat) :
    Except PffError (Bool × Slot) :=
  match l with
  | [] => .ok (false, slot)
  | c :: cs =>
      match item_tree_node_search c id slot depth with
      | .error e => .error e
      | .ok (true, s) => .ok (true, s)
      | .ok (false, s) => item_tree_node_search_list cs id s depth
termination_by (LIBPFF_MAXIMUM_ITEM_TREE_RECURSION_DEPTH + 1 - depth, 1, l.length)

end

/-- `libpff_item_tree_get_tree_node_by_identifier` including its NULL
item-tree-node argument check. -/
def libpff_item_tree_get_tree_node_by_identifier (node : Option TreeNode) (id : Nat)
    (slot : Slot) (depth : Nat) : Except PffError (Bool × Slot) :=
  match node with
  | none => .error .invalidArgument
  | some t => item_tree_node_search t id slot depth

/-- `libpff_item_tree_get_sub_node_by_identifier`: validates the node and
the out-slot up front, then scans the immediate sub nodes for the first
one with the given descriptor identifier. -/
def libpff_item_tree_get_sub_node_by_identifier (node : Option TreeNode) (id : Nat)
    (slot : Slot) : Except PffError (Bool × Slot) :=
  match node with
  | none => .error .invalidArgument
  | some t =>
      match slot with
      | .null => .error .invalidArgument
      | .set _ => .error .valueAlreadySet
      | .unset =>
          match t.sub_nodes.find? (fun c => c.value.descriptor_identifier == id) with
          | some c => .ok (true, .set c)
          | none => .ok (false, .unset)

/-- The `libpff_item_tree_t` handle: its root node is NULL until a build
populates it. -/
structure ItemTree where
  root_node : Option TreeNode

/-- `libpff_item_tree_get_node_by_identifier`: checks the item tree
handle and delegates to the recursive search on the (possibly NULL) root
node at depth 0. -/
def libpff_item_tree_get_node_by_identifier (item_tree : Option ItemTree) (id : Nat)
    (slot : Slot) : Except PffError (Bool × Slot) :=
  match item_tree with
  | none => .error .invalidArgument
  | some it => libpff_item_tree_get_tree_node_by_identifier it.root_node id slot 0

mutual

/-- Specification-level pre-order first-match search (no depth counter),
used to state what the source search returns. -/
def preorder_find (id : Nat) : TreeNode → Option TreeNode
  | .node v cs =>
      if v.descriptor_identifier = id then some (.node v cs)
      else preorder_find_list id cs

/-- Pre-order first-match search over a list of trees. -/
def preorder_find_list (id : Nat) : List TreeNode → Option TreeNode
  | [] => none
  | c :: cs =>
      match preorder_find id c with
      | some r => some r
      | none => preorder_find_list id cs

end

mutual

/-- Whether some node of the tree carries the given descriptor
identifier. -/
def tree_contains (id : Nat) : TreeNode → Bool
  | .node v cs => v.descriptor_identifier == id || tree_contains_list id cs

/-- Whether some node of some tree in the list carries the identifier. -/
def tree_contains_list (id : Nat) : List TreeNode → Bool
  | [] => false
  | c :: cs => tree_contains id c || tree_contains_list id cs

end

/-- Strict ascent of a list of naturals (adjacent comparison). -/
def ascending : List Nat → Bool
  | [] => true
  | [_] => true
  | a :: b :: rest => decide (a < b) && ascending (b :: rest)

/-- The descriptor identifiers of a child list, in order. -/
def child_ids (l : List TreeNode) : List Nat :=
  l.map (fun c => c.value.descriptor_identifier)

/-- A child list is sorted when its descriptor identifiers are strictly
ascending (which also makes them unique). -/
def sorted_sub_nodes (l : List TreeNode) : Bool :=
  ascending (child_ids l)

mutual

/-- Every node of the tree has a sorted (strictly ascending, hence
duplicate-free) child list. -/
def tree_sorted : TreeNode → Bool
  | .node _ cs => sorted_sub_nodes cs && tree_sorted_list cs

/-- `tree_sorted` for every tree in the list. -/
def tree_sorted_list : List TreeNode → Bool
  | [] => true
  | c :: cs => tree_sorted c && tree_sorted_list cs

end

/-- A non-deleted, error-free leaf entry of the mock descriptor index with
the given identifier and parent identifier. -/
def mk_leaf (i p : Nat) : IdxNode :=
  .node ⟨false, false, false, false, true, false, ⟨i, p, 0, 0⟩, []⟩ []

/-- A non-deleted, error-free internal node of the mock descriptor index. -/
def mk_inner (cs : List IdxNode) : IdxNode :=
  .node ⟨false, false, false, false, false, false, ⟨0, 0, 0, 0⟩, []⟩ cs

/-- An item descriptor with the given identifier and zeroed data fields. -/
def desc (i : Nat) : ItemDescriptor := ⟨i, 0, 0, false⟩

/-- Scenario S1 of the spec: leaves (1,1), (2,1), (3,1), (4,2). -/
def cursor_S1 : Cursor := ⟨mk_inner [mk_leaf 1 1, mk_leaf 2 1, mk_leaf 3 1, mk_leaf 4 2], []⟩

/-- Scenario S4 of the spec: duplicate child id, leaves (1,1), (5,1), (5,1). -/
def cursor_S4 : Cursor := ⟨mk_inner [mk_leaf 1 1, mk_leaf 5 1, mk_leaf 5 1], []⟩

/-- Scenario S5 of the spec: no root folder, leaves (10,20), (20,30); the
cursor cannot find identifier 30. -/
def cursor_S5 : Cursor := ⟨mk_inner [mk_leaf 10 20, mk_leaf 20 30], []⟩

/-- Two self-parented leaves (1,1) and (2,2). -/
def cursor_two_roots : Cursor := ⟨mk_inner [mk_leaf 1 1, mk_leaf 2 2], []⟩

/-- The build result for scenario S1: synthetic(0) with 1 under it, 2 and 3
under 1, 4 under 2; root folder 1; no orphans. -/
def S1_result : BuildState :=
  ⟨TreeNode.node (desc 0)
     [TreeNode.node (desc 1)
        [TreeNode.node (desc 2) [TreeNode.node (desc 4) []],
         TreeNode.node (desc 3) []]],
   some (desc 1), []⟩

/-- The build result for scenario S4: one node for id 5 under 1; the second
colliding descriptor is discarded. -/
def S4_result : BuildState :=
  ⟨TreeNode.node (desc 0) [TreeNode.node (desc 1) [TreeNode.node (desc 5) []]],
   some (desc 1), []⟩

/-- The build result for scenario S5: empty main tree, no root folder; node
20 is orphaned twice (once by read-ahead from 10, once by the main walk)
and node 10 once. -/
def S5_result : BuildState :=
  ⟨TreeNode.node (desc 0) [], none,
   [TreeNode.node (desc 20) [], TreeNode.node (desc 10) [], TreeNode.node (desc 20) []]⟩

/-- A linear chain of item tree nodes: descriptor i on top, then i + 1,
..., i + n, each the single child of the previous one. -/
def chain_from (i : Nat) : Nat → TreeNode
  | 0 => TreeNode.node (desc i) []
  | n + 1 => TreeNode.node (desc i) [chain_from (i + 1) n]

/-- n index leaves (i, i - 1), (i + 1, i), ...: each leaf's parent is its
predecessor. -/
def chain_leaves (i : Nat) : Nat → List IdxNode
  | 0 => []
  | n + 1 => mk_leaf i (i - 1) :: chain_leaves (i + 1) n

/-- A cursor holding the 257-leaf parent chain (1,1), (2,1), (3,2), ...,
(257,256). -/
def cursor_chain257 : Cursor :=
  ⟨mk_inner (mk_leaf 1 1 :: chain_leaves 2 256), []⟩

/-- The build result for the 257-leaf chain: a linear tree carrying
descriptor 257 at depth 257, one level past the search's recursion
bound. -/
def chain_result : BuildState :=
  ⟨TreeNode.node (desc 0) [chain_from 1 256], some (desc 1), []⟩

/-- Every node of the tree lies at depth < h (the root, at depth 0,
consumes one level). -/
def tree_height_le : Nat → TreeNode → Bool
  | 0, _ => false
  | h + 1, t => t.sub_nodes.all (tree_height_le h)

@[simp]
theorem tree_node_value_eq (v : ItemDescriptor) (s : List TreeNode) :
    (TreeNode.node v s).value = v := rfl

@[simp]
theorem tree_node_sub_nodes_eq (v : ItemDescriptor) (s : List TreeNode) :
    (TreeNode.node v s).sub_nodes = s := rfl

@[simp]
theorem idx_node_data_eq (d : IdxData) (s : List IdxNode) :
    (IdxNode.node d s).data = d := rfl

@[simp]
theorem idx_node_sub_nodes_eq (d : IdxData) (s : List IdxNode) :
    (IdxNode.node d s).sub_nodes = s := rfl

theorem ascending_cons (a : Nat) (l : List Nat) :
    ascending (a :: l) = true ↔
      ((∀ b, l.head? = some b → a < b) ∧ ascending l = true) := by
  cases l with
  | nil => simp [ascending]
  | cons b rest => simp [ascending]

theorem ascending_head_lt (a : Nat) (l : List Nat) (h : ascending (a :: l) = true) :
    ∀ b ∈ l, a < b := by
  induction l generalizing a with
  | nil => intro b hb; cases hb
  | cons c rest ih =>
      intro b hb
      rw [ascending_cons] at h
      have hac : a < c := h.1 c rfl
      cases hb with
      | head => exact hac
      | tail _ hb' => exact lt_trans hac (ih c h.2 b hb')

theorem tree_sorted_list_iff (l : List TreeNode) :
    tree_sorted_list l = true ↔ ∀ c ∈ l, tree_sorted c = true := by
  induction l with
  | nil => simp [tree_sorted_list]
  | cons c cs ih => simp [tree_sorted_list, ih]

theorem insert_sorted_unique_ne_nil (d : ItemDescriptor) (l l' : List TreeNode)
    (h : insert_sorted_unique d l = some l') : l' ≠ [] := by
  cases l with
  | nil =>
      simp [insert_sorted_unique] at h
      simp [← h]
  | cons c cs =>
      simp only [insert_sorted_unique] at h
      split at h
      · simp at h; simp [← h]
      · split at h
        · cases h
        · rcases Option.map_eq_some'.mp h with ⟨cs', _, hl'⟩
          simp [← hl']

theorem insert_sorted_unique_head (d : ItemDescriptor) (l l' : List TreeNode)
    (h : insert_sorted_unique d l = some l') :
    l'.head? = some (TreeNode.node d []) ∨ l'.head? = l.head? := by
  cases l with
  | nil =>
      simp [insert_sorted_unique] at h
      simp [← h]
  | cons c cs =>
      simp only [insert_sorted_unique] at h
      split at h
      · simp at h; simp [← h]
      · split at h
        · cases h
        · rcases Option.map_eq_some'.mp h with ⟨cs', _, hl'⟩
          simp [← hl']

theorem insert_sorted_unique_ids (d : ItemDescriptor) :
    ∀ l l', insert_sorted_unique d l = some l' →
      ∀ b, l'.head? = some b →
        b.value.descriptor_identifier = d.descriptor_identifier ∨
          l.head? = some b := by
  intro l l' h b hb
  rcases insert_sorted_unique_head d l l' h with h1 | h1
  · left; rw [h1] at hb; cases hb; rfl
  · right; rw [← h1]; exact hb

theorem child_ids_head (l : List TreeNode) (b : Nat)
    (h : (child_ids l).head? = some b) :
    ∃ x, l.head? = some x ∧ x.value.descriptor_identifier = b := by
  cases l with
  | nil => cases h
  | cons c cs =>
      refine ⟨c, rfl, ?_⟩
      simp [child_ids] at h
      omega

theorem insert_sorted_unique_sorted (d : ItemDescriptor) :
    ∀ l l', sorted_sub_nodes l = true → insert_sorted_unique d l = some l' →
      sorted_sub_nodes l' = true := by
  intro l
  induction l with
  | nil =>
      intro l' _ h
      simp [insert_sorted_unique] at h
      simp [← h, sorted_sub_nodes, child_ids, ascending]
  | cons c cs ih =>
      intro l' hs h
      simp only [insert_sorted_unique] at h
      split at h
      · rename_i hlt
        simp at h
        subst h
        simp only [sorted_sub_nodes, child_ids, List.map, tree_node_value_eq] at hs ⊢
        rw [ascending_cons]
        refine ⟨fun b hb => ?_, hs⟩
        simp at hb
        omega
      · split at h
        · cases h
        · rename_i hlt heq
          rcases Option.map_eq_some'.mp h with ⟨cs', hins, hl'⟩
          subst hl'
          have hgt : c.value.descriptor_identifier < d.descriptor_identifier := by
            omega
          simp only [sorted_sub_nodes, child_ids, List.map] at hs ⊢
          rw [ascending_cons] at hs ⊢
          refine ⟨?_, ?_⟩
          · intro b hb
            rcases child_ids_head cs' b hb with ⟨x, hx, hxb⟩
            rcases insert_sorted_unique_ids d cs cs' hins x hx with h1 | h1
            · omega
            · have : c.value.descriptor_identifier < x.value.descriptor_identifier := by
                apply hs.1
                cases cs with
                | nil => cases h1
                | cons c0 cs0 =>
                    cases h1
                    simp [child_ids]
              omega
          · exact ih cs' (by simpa [sorted_sub_nodes, child_ids] using hs.2) hins

theorem insert_sorted_unique_mem (d : ItemDescriptor) :
    ∀ l l', insert_sorted_unique d l = some l' →
      ∀ c ∈ l', c ∈ l ∨ c = TreeNode.node d [] := by
  intro l
  induction l with
  | nil =>
      intro l' h c hc
      simp [insert_sorted_unique] at h
      subst h
      simp at hc
      right; exact hc
  | cons c0 cs ih =>
      intro l' h c hc
      simp only [insert_sorted_unique] at h
      split at h
      · simp at h
        subst h
        simp at hc
        rcases hc with hc | hc | hc
        · right; exact hc
        · left; simp [hc]
        · left; simp [hc]
      · split at h
        · cases h
        · rcases Option.map_eq_some'.mp h with ⟨cs', hins, hl'⟩
          subst hl'
          rcases List.mem_cons.mp hc with hc | hc
          · left; simp [hc]
          · rcases ih cs' hins c hc with h1 | h1
            · left; exact List.mem_cons_of_mem _ h1
            · right; exact h1

theorem insert_sorted_unique_none_iff (d : ItemDescriptor) :
    ∀ l, sorted_sub_nodes l = true →
      (insert_sorted_unique d l = none ↔
        ∃ c ∈ l, c.value.descriptor_identifier = d.descriptor_identifier) := by
  intro l
  induction l with
  | nil =>
      intro _
      simp [insert_sorted_unique]
  | cons c0 cs ih =>
      intro hs
      have hs' : sorted_sub_nodes cs = true := by
        simp only [sorted_sub_nodes, child_ids, List.map] at hs ⊢
        exact ((ascending_cons _ _).mp hs).2
      have hhead : ∀ c ∈ cs,
          c0.value.descriptor_identifier < c.value.descriptor_identifier := by
        intro c hc
        simp only [sorted_sub_nodes, child_ids, List.map] at hs
        have := ascending_head_lt _ _ hs
        exact this c.value.descriptor_identifier
          (List.mem_map_of_mem (fun x => x.value.descriptor_identifier) hc)
      constructor
      · intro h
        simp only [insert_sorted_unique] at h
        split at h
        · cases h
        · split at h
          · rename_i heq
            exact ⟨c0, List.mem_cons_self _ _, heq.symm⟩
          · rcases Option.map_eq_none'.mp h with hnone
            rcases (ih hs').mp hnone with ⟨c, hc, hceq⟩
            exact ⟨c, List.mem_cons_of_mem _ hc, hceq⟩
      · rintro ⟨c, hc, hceq⟩
        simp only [insert_sorted_unique]
        rcases List.mem_cons.mp hc with hc0 | hcs
        · subst hc0
          rw [if_neg (by omega), if_pos (by omega)]
        · have hlt : c0.value.descriptor_identifier < d.descriptor_identifier := by
            have := hhead c hcs
            omega
          rw [if_neg (by omega), if_neg (by omega)]
          rw [Option.map_eq_none']
          exact (ih hs').mpr ⟨c, hcs, hceq⟩

theorem maxdepth_eq : LIBPFF_MAXIMUM_ITEM_TREE_RECURSION_DEPTH = 256 := rfl

theorem child_ids_cons (c : TreeNode) (cs : List TreeNode) :
    child_ids (c :: cs) = c.value.descriptor_identifier :: child_ids cs := rfl

@[simp]
theorem tree_sorted_node (v : ItemDescriptor) (cs : List TreeNode) :
    tree_sorted (TreeNode.node v cs) = (sorted_sub_nodes cs && tree_sorted_list cs) := by
  simp [tree_sorted]

@[simp]
theorem tree_sorted_list_nil : tree_sorted_list [] = true := by
  simp [tree_sorted_list]

@[simp]
theorem tree_sorted_list_cons (c : TreeNode) (cs : List TreeNode) :
    tree_sorted_list (c :: cs) = (tree_sorted c && tree_sorted_list cs) := by
  simp [tree_sorted_list]

theorem tree_sorted_leaf (d : ItemDescriptor) : tree_sorted (TreeNode.node d []) = true := by
  simp [sorted_sub_nodes, child_ids, ascending]

theorem insert_sorted_unique_all_sorted (d : ItemDescriptor) (l l' : List TreeNode)
    (hins : insert_sorted_unique d l = some l')
    (hl : tree_sorted_list l = true) : tree_sorted_list l' = true := by
  rw [tree_sorted_list_iff] at hl ⊢
  intro c hc
  rcases insert_sorted_unique_mem d l l' hins c hc with h1 | h1
  · exact hl c h1
  · subst h1; exact tree_sorted_leaf d

theorem find_insert_preserves : ∀ k : Nat,
    (∀ depth, LIBPFF_MAXIMUM_ITEM_TREE_RECURSION_DEPTH + 1 ≤ depth + k →
      ∀ pid d t t', find_insert_node pid d t depth = .ok (some (some t')) →
        t'.value = t.value ∧ (tree_sorted t = true → tree_sorted t' = true)) ∧
    (∀ depth, LIBPFF_MAXIMUM_ITEM_TREE_RECURSION_DEPTH + 1 ≤ depth + k →
      ∀ pid d l l', find_insert_list pid d l depth = .ok (some (some l')) →
        child_ids l' = child_ids l ∧
          (tree_sorted_list l = true → tree_sorted_list l' = true)) := by
  intro k
  induction k with
  | zero =>
      constructor
      · intro depth hd pid d t t' h
        rw [maxdepth_eq] at hd
        simp only [find_insert_node] at h
        rw [if_pos (by rw [maxdepth_eq]; omega)] at h
        cases h
      · intro depth hd pid d l l' h
        rw [maxdepth_eq] at hd
        cases l with
        | nil => simp only [find_insert_list] at h; cases h
        | cons c cs =>
            have hn : find_insert_node pid d c depth = .error .outOfBounds := by
              simp only [find_insert_node]
              rw [if_pos (by rw [maxdepth_eq]; omega)]
            simp only [find_insert_list, hn] at h
            cases h
  | succ k ih =>
      have hnode : ∀ depth, LIBPFF_MAXIMUM_ITEM_TREE_RECURSION_DEPTH + 1 ≤ depth + (k + 1) →
          ∀ pid d t t', find_insert_node pid d t depth = .ok (some (some t')) →
            t'.value = t.value ∧ (tree_sorted t = true → tree_sorted t' = true) := by
        intro depth hd pid d t t' h
        obtain ⟨v, cs⟩ := t
        simp only [find_insert_node] at h
        by_cases hdep : LIBPFF_MAXIMUM_ITEM_TREE_RECURSION_DEPTH < depth
        · rw [if_pos hdep] at h; cases h
        · rw [if_neg hdep] at h
          by_cases hid : (TreeNode.node v cs).value.descriptor_identifier = pid
          · rw [if_pos hid] at h
            cases hins : insert_sorted_unique d (TreeNode.node v cs).sub_nodes with
            | none => rw [hins] at h; cases h
            | some cs' =>
                rw [hins] at h
                simp at h
                subst h
                simp only [tree_node_sub_nodes_eq] at hins
                refine ⟨rfl, fun hs => ?_⟩
                simp only [tree_sorted_node, Bool.and_eq_true] at hs ⊢
                exact ⟨insert_sorted_unique_sorted d cs cs' hs.1 hins,
                  insert_sorted_unique_all_sorted d cs cs' hins hs.2⟩
          · rw [if_neg hid] at h
            split at h
            · cases h
            · cases h
            · cases h
            · rename_i cs' heq
              simp only [tree_node_sub_nodes_eq] at heq
              simp at h
              subst h
              have hlist := (ih.2 (depth + 1) (by omega) pid d cs cs' heq)
              refine ⟨rfl, fun hs => ?_⟩
              simp only [tree_sorted_node, Bool.and_eq_true] at hs ⊢
              refine ⟨?_, hlist.2 hs.2⟩
              have : sorted_sub_nodes cs' = ascending (child_ids cs') := rfl
              rw [this, hlist.1]
              exact hs.1
      refine ⟨hnode, ?_⟩
      intro depth hd pid d l l' h
      induction l generalizing l' with
      | nil => simp only [find_insert_list] at h; cases h
      | cons c cs ihl =>
          simp only [find_insert_list] at h
          split at h
          · cases h
          · cases h
          · rename_i c' heq
            simp at h
            subst h
            have hc := hnode depth hd pid d c c' heq
            constructor
            · rw [child_ids_cons, child_ids_cons, hc.1]
            · intro hs
              simp only [tree_sorted_list_cons, Bool.and_eq_true] at hs ⊢
              exact ⟨hc.2 hs.1, hs.2⟩
          · rename_i hnone
            split at h
            · cases h
            · cases h
            · cases h
            · rename_i cs' heq
              simp at h
              subst h
              have hcs := ihl cs' heq
              constructor
              · rw [child_ids_cons, child_ids_cons, hcs.1]
              · intro hs
                simp only [tree_sorted_list_cons, Bool.and_eq_true] at hs ⊢
                exact ⟨hs.1, hcs.2 hs.2⟩

theorem find_insert_node_preserves (pid : Nat) (d : ItemDescriptor) (t t' : TreeNode)
    (depth : Nat) (h : find_insert_node pid d t depth = .ok (some (some t'))) :
    t'.value = t.value ∧ (tree_sorted t = true → tree_sorted t' = true) :=
  (find_insert_preserves (LIBPFF_MAXIMUM_ITEM_TREE_RECURSION_DEPTH + 1)).1 depth
    (by omega) pid d t t' h

theorem create_preserves : ∀ fuel : Nat,
    (∀ cur n st st', libpff_item_tree_create_node cur fuel n st = .ok st' →
       (tree_sorted st.tree = true → tree_sorted st'.tree = true) ∧
       (∀ d0, st.root_folder = some d0 → st'.root_folder = some d0)) ∧
    (∀ cur n st st', libpff_item_tree_create_leaf_node cur fuel n st = .ok st' →
       (tree_sorted st.tree = true → tree_sorted st'.tree = true) ∧
       (∀ d0, st.root_folder = some d0 → st'.root_folder = some d0)) ∧
    (∀ cur n remaining idx st st',
       libpff_item_tree_create_sub_nodes cur fuel n remaining idx st = .ok st' →
       (tree_sorted st.tree = true → tree_sorted st'.tree = true) ∧
       (∀ d0, st.root_folder = some d0 → st'.root_folder = some d0)) := by
  intro fuel
  induction fuel with
  | zero =>
      refine ⟨?_, ?_, ?_⟩
      · intro cur n st st' h
        simp [libpff_item_tree_create_node] at h
      · intro cur n st st' h
        simp [libpff_item_tree_create_leaf_node] at h
      · intro cur n remaining idx st st' h
        cases remaining with
        | zero =>
            simp only [libpff_item_tree_create_sub_nodes] at h
            cases h
            exact ⟨fun hs => hs, fun d0 hd0 => hd0⟩
        | succ r =>
            simp only [libpff_item_tree_create_sub_nodes] at h
            split at h
            · cases h
            · rename_i c hc
              have hz : libpff_item_tree_create_node cur 0 c st = .error .outOfBounds := by
                simp [libpff_item_tree_create_node]
              rw [hz] at h
              cases h
  | succ fuel ih =>
      have hleaf : ∀ cur n st st',
          libpff_item_tree_create_leaf_node cur (fuel + 1) n st = .ok st' →
          (tree_sorted st.tree = true → tree_sorted st'.tree = true) ∧
          (∀ d0, st.root_folder = some d0 → st'.root_folder = some d0) := by
        intro cur n st st' h
        simp only [libpff_item_tree_create_leaf_node, if_neg (Nat.succ_ne_zero fuel),
          Nat.add_sub_cancel] at h
        split at h
        · cases h
        · rename_i v hv
          split at h
          · cases h
          · split at h
            · -- self-parented leaf
              split at h
              · cases h
              · rename_i hrf
                split at h
                · rename_i cs hins
                  cases h
                  obtain ⟨⟨v0, cs0⟩, rf, orph⟩ := st
                  simp only at hins hrf ⊢
                  refine ⟨fun hs => ?_, fun d0 hd0 => by cases hrf ▸ hd0⟩
                  simp only [tree_node_sub_nodes_eq] at hins
                  simp only [tree_sorted_node, Bool.and_eq_true] at hs ⊢
                  exact ⟨insert_sorted_unique_sorted _ cs0 cs hs.1 hins,
                    insert_sorted_unique_all_sorted _ cs0 cs hins hs.2⟩
                · cases h
                  exact ⟨fun hs => hs, fun d0 hd0 => hd0⟩
            · -- normal leaf
              split at h
              · cases h
              · rename_i t' hfi
                cases h
                refine ⟨fun hs => ?_, fun d0 hd0 => hd0⟩
                exact (find_insert_node_preserves _ _ _ _ _ hfi).2 hs
              · cases h
                exact ⟨fun hs => hs, fun d0 hd0 => hd0⟩
              · rename_i hmiss
                split at h
                · cases h
                · cases h
                  exact ⟨fun hs => hs, fun d0 hd0 => hd0⟩
                · rename_i pn hpn
                  split at h
                  · cases h
                  · rename_i st1 hst1
                    have h1 := (ih.1 cur pn st st1 hst1)
                    split at h
                    · cases h
                    · rename_i t' hfi
                      cases h
                      exact ⟨fun hs => (find_insert_node_preserves _ _ _ _ _ hfi).2
                          (h1.1 hs),
                        fun d0 hd0 => h1.2 d0 hd0⟩
                    · cases h
                      exact h1
                    · cases h
                      exact ⟨fun hs => h1.1 hs, fun d0 hd0 => h1.2 d0 hd0⟩
      have hnode : ∀ cur n st st',
          libpff_item_tree_create_node cur (fuel + 1) n st = .ok st' →
          (tree_sorted st.tree = true → tree_sorted st'.tree = true) ∧
          (∀ d0, st.root_folder = some d0 → st'.root_folder = some d0) := by
        intro cur n st st' h
        simp only [libpff_item_tree_create_node, if_neg (Nat.succ_ne_zero fuel),
          Nat.add_sub_cancel] at h
        split at h
        · cases h
          exact ⟨fun hs => hs, fun d0 hd0 => hd0⟩
        · split at h
          · cases h
          · cases h
            exact ⟨fun hs => hs, fun d0 hd0 => hd0⟩
          · split at h
            · cases h
            · exact hleaf cur n st st' h
            · exact ih.2.2 cur n _ 0 st st' h
      refine ⟨hnode, hleaf, ?_⟩
      intro cur n remaining idx st st' h
      induction remaining generalizing idx st with
      | zero =>
          simp only [libpff_item_tree_create_sub_nodes] at h
          cases h
          exact ⟨fun hs => hs, fun d0 hd0 => hd0⟩
      | succ r ihr =>
          simp only [libpff_item_tree_create_sub_nodes] at h
          split at h
          · cases h
          · rename_i c hc
            split at h
            · cases h
            · rename_i st1 hst1
              have h1 := hnode cur c st st1 hst1
              have h2 := ihr (idx + 1) st1 h
              exact ⟨fun hs => h2.1 (h1.1 hs), fun d0 hd0 => h2.2 d0 (h1.2 d0 hd0)⟩

theorem preorder_find_node (id : Nat) (v : ItemDescriptor) (cs : List TreeNode) :
    preorder_find id (.node v cs) =
      if v.descriptor_identifier = id then some (.node v cs)
      else preorder_find_list id cs := by
  simp [preorder_find]

theorem preorder_find_list_nil (id : Nat) : preorder_find_list id [] = none := by
  simp [preorder_find_list]

theorem preorder_find_list_cons (id : Nat) (c : TreeNode) (cs : List TreeNode) :
    preorder_find_list id (c :: cs) =
      match preorder_find id c with
      | some r => some r
      | none => preorder_find_list id cs := by
  simp [preorder_find_list]

theorem search_spec : ∀ k : Nat,
    (∀ depth, LIBPFF_MAXIMUM_ITEM_TREE_RECURSION_DEPTH + 1 ≤ depth + k → ∀ t id r,
        (item_tree_node_search t id .unset depth = .ok r →
          (∃ n, preorder_find id t = some n ∧ r = (true, .set n)) ∨
          (preorder_find id t = none ∧ r = (false, .unset))) ∧
        (item_tree_node_search t id .null depth = .ok r →
          r = (false, .null) ∧ preorder_find id t = none)) ∧
    (∀ depth, LIBPFF_MAXIMUM_ITEM_TREE_RECURSION_DEPTH + 1 ≤ depth + k → ∀ l id r,
        (item_tree_node_search_list l id .unset depth = .ok r →
          (∃ n, preorder_find_list id l = some n ∧ r = (true, .set n)) ∨
          (preorder_find_list id l = none ∧ r = (false, .unset))) ∧
        (item_tree_node_search_list l id .null depth = .ok r →
          r = (false, .null) ∧ preorder_find_list id l = none)) := by
  intro k
  induction k with
  | zero =>
      constructor
      · intro depth hd t id r
        rw [maxdepth_eq] at hd
        have hz : ∀ slot, item_tree_node_search t id slot depth = .error .outOfBounds := by
          intro slot
          rw [item_tree_node_search.eq_def]
          rw [if_pos (by rw [maxdepth_eq]; omega)]
        constructor
        · intro h; rw [hz] at h; cases h
        · intro h; rw [hz] at h; cases h
      · intro depth hd l id r
        rw [maxdepth_eq] at hd
        cases l with
        | nil =>
            constructor
            · intro h
              simp only [item_tree_node_search_list] at h
              cases h
              exact Or.inr ⟨preorder_find_list_nil id, rfl⟩
            · intro h
              simp only [item_tree_node_search_list] at h
              cases h
              exact ⟨rfl, preorder_find_list_nil id⟩
        | cons c cs =>
            have hz : ∀ slot, item_tree_node_search c id slot depth = .error .outOfBounds := by
              intro slot
              rw [item_tree_node_search.eq_def]
              rw [if_pos (by rw [maxdepth_eq]; omega)]
            constructor
            · intro h
              simp only [item_tree_node_search_list, hz] at h
              cases h
            · intro h
              simp only [item_tree_node_search_list, hz] at h
              cases h
  | succ k ih =>
      have hnode : ∀ depth, LIBPFF_MAXIMUM_ITEM_TREE_RECURSION_DEPTH + 1 ≤ depth + (k + 1) →
          ∀ t id r,
          (item_tree_node_search t id .unset depth = .ok r →
            (∃ n, preorder_find id t = some n ∧ r = (true, .set n)) ∨
            (preorder_find id t = none ∧ r = (false, .unset))) ∧
          (item_tree_node_search t id .null depth = .ok r →
            r = (false, .null) ∧ preorder_find id t = none) := by
        intro depth hd t id r
        obtain ⟨v, cs⟩ := t
        by_cases hdep : LIBPFF_MAXIMUM_ITEM_TREE_RECURSION_DEPTH < depth
        · have hz : ∀ slot,
              item_tree_node_search (TreeNode.node v cs) id slot depth =
                .error .outOfBounds := by
            intro slot
            rw [item_tree_node_search.eq_def]
            rw [if_pos hdep]
          constructor
          · intro h; rw [hz] at h; cases h
          · intro h; rw [hz] at h; cases h
        · by_cases hid : v.descriptor_identifier = id
          · constructor
            · intro h
              simp only [item_tree_node_search, if_neg hdep, tree_node_value_eq,
                if_pos hid] at h
              cases h
              exact Or.inl ⟨TreeNode.node v cs, by rw [preorder_find_node, if_pos hid], rfl⟩
            · intro h
              simp only [item_tree_node_search, if_neg hdep, tree_node_value_eq,
                if_pos hid] at h
              cases h
          · constructor
            · intro h
              simp only [item_tree_node_search, if_neg hdep, tree_node_value_eq,
                if_neg hid, tree_node_sub_nodes_eq] at h
              have := ((ih.2 (depth + 1) (by omega) cs id r).1) h
              rw [preorder_find_node, if_neg hid]
              exact this
            · intro h
              simp only [item_tree_node_search, if_neg hdep, tree_node_value_eq,
                if_neg hid, tree_node_sub_nodes_eq] at h
              have := ((ih.2 (depth + 1) (by omega) cs id r).2) h
              rw [preorder_find_node, if_neg hid]
              exact this
      refine ⟨hnode, ?_⟩
      intro depth hd l id r
      induction l generalizing r with
      | nil =>
          constructor
          · intro h
            simp only [item_tree_node_search_list] at h
            cases h
            exact Or.inr ⟨preorder_find_list_nil id, rfl⟩
          · intro h
            simp only [item_tree_node_search_list] at h
            cases h
            exact ⟨rfl, preorder_find_list_nil id⟩
      | cons c cs ihl =>
          constructor
          · intro h
            simp only [item_tree_node_search_list] at h
            split at h
            · cases h
            · rename_i s heq
              cases h
              rcases ((hnode depth hd c id (true, s)).1 heq) with ⟨n, hn, hr⟩ | ⟨_, hr⟩
              · cases hr
                refine Or.inl ⟨n, ?_, rfl⟩
                rw [preorder_find_list_cons, hn]
              · cases hr
            · rename_i s heq
              rcases ((hnode depth hd c id (false, s)).1 heq) with ⟨n, hn, hr⟩ | ⟨hnone, hr⟩
              · cases hr
              · cases hr
                have := (ihl r).1 h
                rw [preorder_find_list_cons, hnone]
                exact this
          · intro h
            simp only [item_tree_node_search_list] at h
            split at h
            · cases h
            · rename_i s heq
              cases h
              rcases ((hnode depth hd c id (true, s)).2 heq) with ⟨hr, _⟩
              cases hr
            · rename_i s heq
              rcases ((hnode depth hd c id (false, s)).2 heq) with ⟨hr, hnone⟩
              cases hr
              have := (ihl r).2 h
              rw [preorder_find_list_cons, hnone]
              exact this

theorem tree_nested_ind (P : TreeNode → Prop) (Q : List TreeNode → Prop)
    (hnode : ∀ v cs, Q cs → P (TreeNode.node v cs))
    (hnil : Q [])
    (hcons : ∀ c cs, P c → Q cs → Q (c :: cs)) :
    (∀ t, P t) ∧ (∀ l, Q l) := by
  have ht : ∀ t, P t := fun t => TreeNode.rec hnode hnil hcons t
  refine ⟨ht, ?_⟩
  intro l
  induction l with
  | nil => exact hnil
  | cons c cs ih => exact hcons c cs (ht c) ih

theorem tree_contains_node (id : Nat) (v : ItemDescriptor) (cs : List TreeNode) :
    tree_contains id (.node v cs) =
      (v.descriptor_identifier == id || tree_contains_list id cs) := by
  simp [tree_contains]

theorem tree_contains_list_nil (id : Nat) : tree_contains_list id [] = false := by
  simp [tree_contains_list]

theorem tree_contains_list_cons (id : Nat) (c : TreeNode) (cs : List TreeNode) :
    tree_contains_list id (c :: cs) =
      (tree_contains id c || tree_contains_list id cs) := by
  simp [tree_contains_list]

theorem preorder_find_value (id : Nat) :
    (∀ t, ∀ n, preorder_find id t = some n → n.value.descriptor_identifier = id) ∧
    (∀ l, ∀ n, preorder_find_list id l = some n → n.value.descriptor_identifier = id) := by
  apply tree_nested_ind
    (P := fun t => ∀ n, preorder_find id t = some n → n.value.descriptor_identifier = id)
    (Q := fun l => ∀ n, preorder_find_list id l = some n →
      n.value.descriptor_identifier = id)
  · intro v cs hq n hn
    rw [preorder_find_node] at hn
    split at hn
    · rename_i hv
      cases hn
      simpa using hv
    · exact hq n hn
  · intro n hn
    rw [preorder_find_list_nil] at hn
    cases hn
  · intro c cs hp hq n hn
    rw [preorder_find_list_cons] at hn
    cases hfind : preorder_find id c with
    | some r =>
        rw [hfind] at hn
        simp at hn
        exact hn ▸ hp r hfind
    | none =>
        rw [hfind] at hn
        simp at hn
        exact hq n hn

theorem tree_contains_preorder (id : Nat) :
    (∀ t, tree_contains id t = true → ∃ n, preorder_find id t = some n) ∧
    (∀ l, tree_contains_list id l = true → ∃ n, preorder_find_list id l = some n) := by
  apply tree_nested_ind
    (P := fun t => tree_contains id t = true → ∃ n, preorder_find id t = some n)
    (Q := fun l => tree_contains_list id l = true →
      ∃ n, preorder_find_list id l = some n)
  · intro v cs hq hc
    rw [tree_contains_node] at hc
    rw [preorder_find_node]
    by_cases hv : v.descriptor_identifier = id
    · exact ⟨TreeNode.node v cs, by rw [if_pos hv]⟩
    · rw [if_neg hv]
      apply hq
      simpa [hv] using hc
  · intro hc
    rw [tree_contains_list_nil] at hc
    cases hc
  · intro c cs hp hq hc
    rw [tree_contains_list_cons] at hc
    rw [preorder_find_list_cons]
    rcases Bool.or_eq_true_iff.mp hc with h1 | h1
    · rcases hp h1 with ⟨n, hn⟩
      exact ⟨n, by rw [hn]⟩
    · rcases hq h1 with ⟨n, hn⟩
      cases hfind : preorder_find id c with
      | some r => exact ⟨r, by simp⟩
      | none => exact ⟨n, by simpa using hn⟩

theorem bind_insert_gt (x : ItemDescriptor) (c : TreeNode)
    (hgt : c.value.descriptor_identifier < x.descriptor_identifier)
    (o : Option (List TreeNode)) :
    (o.map (c :: ·)).bind (insert_sorted_unique x) =
      (o.bind (insert_sorted_unique x)).map (c :: ·) := by
  cases o with
  | none => simp
  | some lx =>
      have h1 : ¬ (x.descriptor_identifier < c.value.descriptor_identifier) := by omega
      have h2 : ¬ (x.descriptor_identifier = c.value.descriptor_identifier) := by omega
      simp [insert_sorted_unique, h1, h2]

theorem insert_sorted_unique_comm (a b : ItemDescriptor)
    (hab : a.descriptor_identifier ≠ b.descriptor_identifier) :
    ∀ l : List TreeNode,
      (insert_sorted_unique a l).bind (insert_sorted_unique b) =
        (insert_sorted_unique b l).bind (insert_sorted_unique a) := by
  intro l
  induction l with
  | nil =>
      rcases Nat.lt_or_ge a.descriptor_identifier b.descriptor_identifier with h | h
      · have h1 : ¬ (b.descriptor_identifier < a.descriptor_identifier) := by omega
        have h2 : ¬ (b.descriptor_identifier = a.descriptor_identifier) := by omega
        have h3 : ¬ (a.descriptor_identifier = b.descriptor_identifier) := hab
        simp [insert_sorted_unique, h, h1, h2, h3]
      · have h0 : b.descriptor_identifier < a.descriptor_identifier := by omega
        have h1 : ¬ (a.descriptor_identifier < b.descriptor_identifier) := by omega
        have h2 : ¬ (a.descriptor_identifier = b.descriptor_identifier) := hab
        have h3 : ¬ (b.descriptor_identifier = a.descriptor_identifier) := by omega
        simp [insert_sorted_unique, h0, h1, h2, h3]
  | cons c l ihl =>
      rcases Nat.lt_trichotomy a.descriptor_identifier c.value.descriptor_identifier
        with ha | ha | ha
      · rcases Nat.lt_trichotomy b.descriptor_identifier c.value.descriptor_identifier
          with hb | hb | hb
        · -- a < c, b < c
          rcases Nat.lt_or_ge a.descriptor_identifier b.descriptor_identifier with h | h
          · have n1 : ¬ (b.descriptor_identifier < a.descriptor_identifier) := by omega
            have n2 : ¬ (b.descriptor_identifier = a.descriptor_identifier) := by omega
            have n3 : ¬ (a.descriptor_identifier = b.descriptor_identifier) := hab
            simp [insert_sorted_unique, ha, hb, h, n1, n2, n3]
          · have h0 : b.descriptor_identifier < a.descriptor_identifier := by omega
            have n1 : ¬ (a.descriptor_identifier < b.descriptor_identifier) := by omega
            have n2 : ¬ (a.descriptor_identifier = b.descriptor_identifier) := hab
            have n3 : ¬ (b.descriptor_identifier = a.descriptor_identifier) := by omega
            simp [insert_sorted_unique, ha, hb, h0, n1, n2, n3]
        · -- a < c, b = c
          have n1 : ¬ (b.descriptor_identifier < c.value.descriptor_identifier) := by omega
          have n2 : ¬ (b.descriptor_identifier < a.descriptor_identifier) := by omega
          have n3 : ¬ (b.descriptor_identifier = a.descriptor_identifier) := by omega
          have hLa : insert_sorted_unique a (c :: l) =
              some (TreeNode.node a [] :: c :: l) := by
            simp only [insert_sorted_unique]
            rw [if_pos ha]
          have hRb : insert_sorted_unique b (c :: l) = none := by
            simp only [insert_sorted_unique]
            rw [if_neg n1, if_pos hb]
          rw [hLa, hRb]
          simp only [Option.some_bind, Option.none_bind]
          simp only [insert_sorted_unique, tree_node_value_eq]
          rw [if_neg n2, if_neg n3, if_neg n1, if_pos hb]
          rfl
        · -- a < c, b > c
          have n1 : ¬ (b.descriptor_identifier < c.value.descriptor_identifier) := by omega
          have n2 : ¬ (b.descriptor_identifier = c.value.descriptor_identifier) := by omega
          have n3 : ¬ (b.descriptor_identifier < a.descriptor_identifier) := by omega
          have n4 : ¬ (b.descriptor_identifier = a.descriptor_identifier) := by omega
          cases hib : insert_sorted_unique b l with
          | none => simp [insert_sorted_unique, ha, n1, n2, n3, n4, hib]
          | some lb => simp [insert_sorted_unique, ha, n1, n2, n3, n4, hib]
      · rcases Nat.lt_trichotomy b.descriptor_identifier c.value.descriptor_identifier
          with hb | hb | hb
        · -- a = c, b < c
          have n1 : ¬ (a.descriptor_identifier < c.value.descriptor_identifier) := by omega
          have n2 : ¬ (a.descriptor_identifier < b.descriptor_identifier) := by omega
          have n3 : ¬ (a.descriptor_identifier = b.descriptor_identifier) := hab
          have hLa : insert_sorted_unique a (c :: l) = none := by
            simp only [insert_sorted_unique]
            rw [if_neg n1, if_pos ha]
          have hRb : insert_sorted_unique b (c :: l) =
              some (TreeNode.node b [] :: c :: l) := by
            simp only [insert_sorted_unique]
            rw [if_pos hb]
          rw [hLa, hRb]
          simp only [Option.none_bind, Option.some_bind]
          simp only [insert_sorted_unique, tree_node_value_eq]
          rw [if_neg n2, if_neg n3, if_neg n1, if_pos ha]
          rfl
        · -- a = c, b = c: impossible
          exact absurd (hb ▸ ha) hab
        · -- a = c, b > c
          have n1 : ¬ (a.descriptor_identifier < c.value.descriptor_identifier) := by omega
          have n2 : ¬ (b.descriptor_identifier < c.value.descriptor_identifier) := by omega
          have n3 : ¬ (b.descriptor_identifier = c.value.descriptor_identifier) := by omega
          cases hib : insert_sorted_unique b l with
          | none => simp [insert_sorted_unique, ha, n1, n2, n3, hib]
          | some lb => simp [insert_sorted_unique, ha, n1, n2, n3, hib]
      · rcases Nat.lt_trichotomy b.descriptor_identifier c.value.descriptor_identifier
          with hb | hb | hb
        · -- a > c, b < c
          have n1 : ¬ (a.descriptor_identifier < c.value.descriptor_identifier) := by omega
          have n2 : ¬ (a.descriptor_identifier = c.value.descriptor_identifier) := by omega
          have n3 : ¬ (a.descriptor_identifier < b.descriptor_identifier) := by omega
          have n4 : ¬ (a.descriptor_identifier = b.descriptor_identifier) := hab
          cases hia : insert_sorted_unique a l with
          | none => simp [insert_sorted_unique, hb, n1, n2, n3, n4, hia]
          | some la => simp [insert_sorted_unique, hb, n1, n2, n3, n4, hia]
        · -- a > c, b = c
          have n1 : ¬ (a.descriptor_identifier < c.value.descriptor_identifier) := by omega
          have n2 : ¬ (a.descriptor_identifier = c.value.descriptor_identifier) := by omega
          have n3 : ¬ (b.descriptor_identifier < c.value.descriptor_identifier) := by omega
          cases hia : insert_sorted_unique a l with
          | none => simp [insert_sorted_unique, hb, n1, n2, n3, hia]
          | some la => simp [insert_sorted_unique, hb, n1, n2, n3, hia]
        · -- a > c, b > c: both push past c, use the induction hypothesis
          have n1 : ¬ (a.descriptor_identifier < c.value.descriptor_identifier) := by omega
          have n2 : ¬ (a.descriptor_identifier = c.value.descriptor_identifier) := by omega
          have n3 : ¬ (b.descriptor_identifier < c.value.descriptor_identifier) := by omega
          have n4 : ¬ (b.descriptor_identifier = c.value.descriptor_identifier) := by omega
          have hL : insert_sorted_unique a (c :: l) =
              (insert_sorted_unique a l).map (c :: ·) := by
            simp [insert_sorted_unique, n1, n2]
          have hR : insert_sorted_unique b (c :: l) =
              (insert_sorted_unique b l).map (c :: ·) := by
            simp [insert_sorted_unique, n3, n4]
          rw [hL, hR, bind_insert_gt b c hb, bind_insert_gt a c ha, ihl]

/-- C1: for every tree produced by a successful build
(`libpff_item_tree_create`), every node's child list holds unique
descriptor identifiers in strictly ascending order; both the root-folder
insertion under the synthetic root and every normal child insertion go
through the sorted-unique insertion, which preserves this invariant. -/
theorem claim_C1_build_children_sorted (cur : Cursor) (st : BuildState)
    (h : libpff_item_tree_create cur = .ok st) :
    tree_sorted st.tree = true := by
  simp only [libpff_item_tree_create] at h
  exact ((create_preserves (LIBPFF_MAXIMUM_ITEM_TREE_RECURSION_DEPTH + 1)).1
    cur cur.root _ st h).1 (tree_sorted_leaf _)

theorem claim_C1_build_children_sorted_witness :
    libpff_item_tree_create cursor_S1 = .ok S1_result ∧
      tree_sorted S1_result.tree = true := by
  have hbuild : libpff_item_tree_create cursor_S1 = .ok S1_result := by
    simp [libpff_item_tree_create, libpff_item_tree_create_node,
      libpff_item_tree_create_sub_nodes, libpff_item_tree_create_leaf_node,
      libfdata_tree_node_get_number_of_sub_nodes, libfdata_tree_node_is_deleted,
      libfdata_tree_node_is_leaf, libfdata_tree_node_get_node_value,
      libfdata_tree_node_get_sub_node_by_index,
      libpff_index_tree_get_leaf_node_by_identifier, index_tree_find_leaf,
      index_tree_find_leaf_list, find_insert_node, find_insert_list,
      insert_sorted_unique, item_descriptor_of_value, mk_leaf, mk_inner, desc,
      cursor_S1, S1_result, UINT32_MAX, LIBPFF_MAXIMUM_ITEM_TREE_RECURSION_DEPTH]
  exact ⟨hbuild, claim_C1_build_children_sorted cursor_S1 S1_result hbuild⟩

/-- C10: calling the navigation entry point
`libpff_item_tree_get_node_by_identifier` on a tree that was created but
never built (root node still NULL) is a fatal error for every searched
identifier (including 0) and every state of the output parameter; it is
never the NotFound result. -/
theorem claim_C10_unbuilt_tree_find_fatal :
    ∀ (id : Nat) (slot : Slot),
      libpff_item_tree_get_node_by_identifier (some ⟨none⟩) id slot =
        .error .invalidArgument := by
  intro id slot
  rfl

/-- C2: a cursor I/O error from the `number_of_sub_nodes` probe at the top
of a subtree is swallowed: the builder clears the error, skips the subtree
and returns success with the state unchanged.  A cursor I/O error raised
anywhere else — `is_deleted`, `is_leaf`, `sub_node_by_index`,
`node_value`, or the read-ahead lookup — is fatal and propagates.
(`fuel ≠ 0` means the depth check at entry passes.) -/
theorem claim_C2_cursor_io_tolerance :
    (∀ (cur : Cursor) (fuel : Nat) (n : IdxNode) (st : BuildState), fuel ≠ 0 →
       n.data.num_err = true →
       libpff_item_tree_create_node cur fuel n st = .ok st) ∧
    (∀ (cur : Cursor) (fuel : Nat) (n : IdxNode) (st : BuildState), fuel ≠ 0 →
       n.data.num_err = false → n.data.del_err = true →
       libpff_item_tree_create_node cur fuel n st = .error .cursorIo) ∧
    (∀ (cur : Cursor) (fuel : Nat) (n : IdxNode) (st : BuildState), fuel ≠ 0 →
       n.data.num_err = false → n.data.del_err = false → n.data.deleted = false →
       n.data.leaf_err = true →
       libpff_item_tree_create_node cur fuel n st = .error .cursorIo) ∧
    (∀ (cur : Cursor) (fuel : Nat) (n : IdxNode) (st : BuildState), fuel ≠ 0 →
       n.data.num_err = false → n.data.del_err = false → n.data.deleted = false →
       n.data.leaf_err = false → n.data.leaf = true → n.data.val_err = true →
       libpff_item_tree_create_node cur fuel n st = .error .cursorIo) ∧
    (∀ (cur : Cursor) (fuel : Nat) (dat : IdxData) (c : IdxNode) (cs : List IdxNode)
       (st : BuildState), fuel ≠ 0 →
       dat.num_err = false → dat.del_err = false → dat.deleted = false →
       dat.leaf_err = false → dat.leaf = false → 0 ∈ dat.sub_errs →
       libpff_item_tree_create_node cur fuel (IdxNode.node dat (c :: cs)) st =
         .error .cursorIo) ∧
    (∀ (cur : Cursor) (fuel : Nat) (n : IdxNode) (st : BuildState) (v : IndexValue),
       fuel ≠ 0 →
       libfdata_tree_node_get_node_value n = .ok v →
       v.identifier ≤ UINT32_MAX → v.identifier ≠ v.parent_identifier →
       find_insert_node v.parent_identifier (item_descriptor_of_value v) st.tree 0 =
         .ok none →
       v.parent_identifier ∈ cur.lookup_err_ids →
       libpff_item_tree_create_leaf_node cur fuel n st = .error .cursorIo) := by
  refine ⟨?_, ?_, ?_, ?_, ?_, ?_⟩
  · intro cur fuel n st hf hnum
    obtain ⟨f, rfl⟩ : ∃ f, fuel = f + 1 := ⟨fuel - 1, by omega⟩
    simp [libpff_item_tree_create_node,
      libfdata_tree_node_get_number_of_sub_nodes, hnum]
  · intro cur fuel n st hf hnum hdel
    obtain ⟨f, rfl⟩ : ∃ f, fuel = f + 1 := ⟨fuel - 1, by omega⟩
    simp [libpff_item_tree_create_node,
      libfdata_tree_node_get_number_of_sub_nodes, libfdata_tree_node_is_deleted,
      hnum, hdel]
  · intro cur fuel n st hf hnum hdel hdeleted hleaf
    obtain ⟨f, rfl⟩ : ∃ f, fuel = f + 1 := ⟨fuel - 1, by omega⟩
    simp [libpff_item_tree_create_node,
      libfdata_tree_node_get_number_of_sub_nodes, libfdata_tree_node_is_deleted,
      libfdata_tree_node_is_leaf, hnum, hdel, hdeleted, hleaf]
  · intro cur fuel n st hf hnum hdel hdeleted hleaferr hleaf hval
    obtain ⟨f, rfl⟩ : ∃ f, fuel = f + 1 := ⟨fuel - 1, by omega⟩
    simp [libpff_item_tree_create_node, libpff_item_tree_create_leaf_node,
      libfdata_tree_node_get_number_of_sub_nodes, libfdata_tree_node_is_deleted,
      libfdata_tree_node_is_leaf, libfdata_tree_node_get_node_value,
      hnum, hdel, hdeleted, hleaferr, hleaf, hval]
  · intro cur fuel dat c cs st hf hnum hdel hdeleted hleaferr hleaf hsub
    obtain ⟨f, rfl⟩ : ∃ f, fuel = f + 1 := ⟨fuel - 1, by omega⟩
    simp [libpff_item_tree_create_node, libpff_item_tree_create_sub_nodes,
      libfdata_tree_node_get_number_of_sub_nodes, libfdata_tree_node_is_deleted,
      libfdata_tree_node_is_leaf, libfdata_tree_node_get_sub_node_by_index,
      hnum, hdel, hdeleted, hleaferr, hleaf, hsub]
  · intro cur fuel n st v hf hval hrange hne hmiss hlook
    obtain ⟨f, rfl⟩ : ∃ f, fuel = f + 1 := ⟨fuel - 1, by omega⟩
    rw [libpff_item_tree_create_leaf_node.eq_def]
    rw [if_neg (Nat.succ_ne_zero f), hval]
    simp only [item_descriptor_of_value] at hmiss
    simp only [if_neg (show ¬ (UINT32_MAX < v.identifier) by omega), if_neg hne,
      item_descriptor_of_value, hmiss]
    simp [libpff_index_tree_get_leaf_node_by_identifier, hlook]

/-- C3: every recursive routine of the build and search carries a depth
counter with bound `LIBPFF_MAXIMUM_ITEM_TREE_RECURSION_DEPTH = 256`.
In the builder `fuel = 257 - depth`, so `fuel = 0` is exactly a call at
depth 257 = bound + 1: it fails with the out-of-bounds error without
recursing, for `libpff_item_tree_create_node` and
`libpff_item_tree_create_leaf_node` alike.  The search fails for every
`depth > 256` and proceeds at `depth ≤ 256`; a deleted node is handled
successfully even at the deepest legal level (`fuel = 1`, depth 256).
All the modelled routines are total functions, so build and search
terminate on every input, including cyclic parent chains. -/
theorem claim_C3_recursion_depth_bound :
    (∀ (cur : Cursor) (n : IdxNode) (st : BuildState),
       libpff_item_tree_create_node cur 0 n st = .error .outOfBounds) ∧
    (∀ (cur : Cursor) (n : IdxNode) (st : BuildState),
       libpff_item_tree_create_leaf_node cur 0 n st = .error .outOfBounds) ∧
    (∀ (t : TreeNode) (id : Nat) (slot : Slot) (depth : Nat),
       LIBPFF_MAXIMUM_ITEM_TREE_RECURSION_DEPTH < depth →
       item_tree_node_search t id slot depth = .error .outOfBounds) ∧
    (∀ (v : ItemDescriptor) (id : Nat) (slot : Slot) (depth : Nat),
       depth ≤ LIBPFF_MAXIMUM_ITEM_TREE_RECURSION_DEPTH →
       item_tree_node_search (TreeNode.node v []) id slot depth ≠
         .error .outOfBounds) ∧
    (∀ (cur : Cursor) (dat : IdxData) (st : BuildState),
       dat.num_err = false → dat.del_err = false → dat.deleted = true →
       libpff_item_tree_create_node cur 1 (IdxNode.node dat []) st = .ok st) := by
  refine ⟨?_, ?_, ?_, ?_, ?_⟩
  · intro cur n st
    simp [libpff_item_tree_create_node]
  · intro cur n st
    simp [libpff_item_tree_create_leaf_node]
  · intro t id slot depth hd
    rw [item_tree_node_search.eq_def]
    rw [if_pos hd]
  · intro v id slot depth hd
    rw [item_tree_node_search.eq_def]
    rw [if_neg (by omega)]
    by_cases hid : (TreeNode.node v []).value.descriptor_identifier = id
    · rw [if_pos hid]
      cases slot <;> simp
    · rw [if_neg hid]
      simp [item_tree_node_search_list]
  · intro cur dat st hnum hdel hdeleted
    simp [libpff_item_tree_create_node,
      libfdata_tree_node_get_number_of_sub_nodes, libfdata_tree_node_is_deleted,
      hnum, hdel, hdeleted]

/-- C4: a non-self-parented leaf whose parent is found neither in the
already-built tree (`find_insert_node` returns not-found) nor via the
cursor read-ahead (`lookup_leaf_by_identifier` returns NotFound) is
wrapped in a standalone tree node appended to the orphan list, and the
leaf processing returns success with tree and root-folder handle
untouched.  Scenario S5 shows a whole build in which no self-parented
leaf exists: the root-folder handle stays unset and the build
succeeds. -/
theorem claim_C4_orphan_handling :
    (∀ (cur : Cursor) (fuel : Nat) (n : IdxNode) (st : BuildState) (v : IndexValue),
       fuel ≠ 0 →
       libfdata_tree_node_get_node_value n = .ok v →
       v.identifier ≤ UINT32_MAX → v.identifier ≠ v.parent_identifier →
       find_insert_node v.parent_identifier (item_descriptor_of_value v) st.tree 0 =
         .ok none →
       libpff_index_tree_get_leaf_node_by_identifier cur v.parent_identifier =
         .ok none →
       libpff_item_tree_create_leaf_node cur fuel n st =
         .ok ⟨st.tree, st.root_folder,
              st.orphans ++ [TreeNode.node (item_descriptor_of_value v) []]⟩) ∧
    libpff_item_tree_create cursor_S5 = .ok S5_result := by
  constructor
  · intro cur fuel n st v hf hval hrange hne hmiss hlook
    obtain ⟨f, rfl⟩ : ∃ f, fuel = f + 1 := ⟨fuel - 1, by omega⟩
    rw [libpff_item_tree_create_leaf_node.eq_def]
    rw [if_neg (Nat.succ_ne_zero f), hval]
    simp only [item_descriptor_of_value] at hmiss hlook ⊢
    simp only [if_neg (show ¬ (UINT32_MAX < v.identifier) by omega), if_neg hne,
      hmiss, hlook]
  · simp [libpff_item_tree_create, libpff_item_tree_create_node,
      libpff_item_tree_create_sub_nodes, libpff_item_tree_create_leaf_node,
      libfdata_tree_node_get_number_of_sub_nodes, libfdata_tree_node_is_deleted,
      libfdata_tree_node_is_leaf, libfdata_tree_node_get_node_value,
      libfdata_tree_node_get_sub_node_by_index,
      libpff_index_tree_get_leaf_node_by_identifier, index_tree_find_leaf,
      index_tree_find_leaf_list, find_insert_node, find_insert_list,
      insert_sorted_unique, item_descriptor_of_value, mk_leaf, mk_inner, desc,
      cursor_S5, S5_result, UINT32_MAX, LIBPFF_MAXIMUM_ITEM_TREE_RECURSION_DEPTH]

/-- C5: processing a self-parented leaf when the root-folder handle is
already set fails the whole build with the duplicate-root error
(VALUE_ALREADY_SET); once set, the handle is never overwritten by any
successful build step; a second self-parented leaf in the cursor makes
the whole `libpff_item_tree_create` fail with exactly that error. -/
theorem claim_C5_duplicate_root :
    (∀ (cur : Cursor) (fuel : Nat) (n : IdxNode) (st : BuildState)
       (v : IndexValue) (d0 : ItemDescriptor), fuel ≠ 0 →
       libfdata_tree_node_get_node_value n = .ok v →
       v.identifier ≤ UINT32_MAX → v.identifier = v.parent_identifier →
       st.root_folder = some d0 →
       libpff_item_tree_create_leaf_node cur fuel n st = .error .valueAlreadySet) ∧
    (∀ (cur : Cursor) (fuel : Nat) (n : IdxNode) (st st' : BuildState)
       (d0 : ItemDescriptor),
       libpff_item_tree_create_node cur fuel n st = .ok st' →
       st.root_folder = some d0 → st'.root_folder = some d0) ∧
    libpff_item_tree_create cursor_two_roots = .error .valueAlreadySet := by
  refine ⟨?_, ?_, ?_⟩
  · intro cur fuel n st v d0 hf hval hrange heq hrf
    obtain ⟨f, rfl⟩ : ∃ f, fuel = f + 1 := ⟨fuel - 1, by omega⟩
    rw [libpff_item_tree_create_leaf_node.eq_def]
    rw [if_neg (Nat.succ_ne_zero f), hval]
    simp only [if_neg (show ¬ (UINT32_MAX < v.identifier) by omega), if_pos heq, hrf]
  · intro cur fuel n st st' d0 h hrf
    exact ((create_preserves fuel).1 cur n st st' h).2 d0 hrf
  · simp [libpff_item_tree_create, libpff_item_tree_create_node,
      libpff_item_tree_create_sub_nodes, libpff_item_tree_create_leaf_node,
      libfdata_tree_node_get_number_of_sub_nodes, libfdata_tree_node_is_deleted,
      libfdata_tree_node_is_leaf, libfdata_tree_node_get_node_value,
      libfdata_tree_node_get_sub_node_by_index,
      libpff_index_tree_get_leaf_node_by_identifier, index_tree_find_leaf,
      index_tree_find_leaf_list, find_insert_node, find_insert_list,
      insert_sorted_unique, item_descriptor_of_value, mk_leaf, mk_inner, desc,
      cursor_two_roots, UINT32_MAX, LIBPFF_MAXIMUM_ITEM_TREE_RECURSION_DEPTH]

/-- C6: on a sorted child list, the unique-entries insertion rejects a
descriptor exactly when a child with the same descriptor identifier
already exists (first inserted wins); when a leaf's parent is found and
the insertion reports a duplicate, the builder frees the freshly built
descriptor and leaf processing returns success with the state unchanged.
Scenario S4 shows a whole build where the second collider for id 5 is
discarded. -/
theorem claim_C6_duplicate_child_discarded :
    (∀ (d : ItemDescriptor) (l : List TreeNode), sorted_sub_nodes l = true →
       ((∃ c ∈ l, c.value.descriptor_identifier = d.descriptor_identifier) ↔
         insert_sorted_unique d l = none)) ∧
    (∀ (cur : Cursor) (fuel : Nat) (n : IdxNode) (st : BuildState) (v : IndexValue),
       fuel ≠ 0 →
       libfdata_tree_node_get_node_value n = .ok v →
       v.identifier ≤ UINT32_MAX → v.identifier ≠ v.parent_identifier →
       find_insert_node v.parent_identifier (item_descriptor_of_value v) st.tree 0 =
         .ok (some none) →
       libpff_item_tree_create_leaf_node cur fuel n st = .ok st) ∧
    libpff_item_tree_create cursor_S4 = .ok S4_result := by
  refine ⟨?_, ?_, ?_⟩
  · intro d l hs
    exact ⟨fun h => (insert_sorted_unique_none_iff d l hs).mpr h,
      fun h => (insert_sorted_unique_none_iff d l hs).mp h⟩
  · intro cur fuel n st v hf hval hrange hne hdup
    obtain ⟨f, rfl⟩ : ∃ f, fuel = f + 1 := ⟨fuel - 1, by omega⟩
    rw [libpff_item_tree_create_leaf_node.eq_def]
    rw [if_neg (Nat.succ_ne_zero f), hval]
    simp only [item_descriptor_of_value] at hdup
    simp only [if_neg (show ¬ (UINT32_MAX < v.identifier) by omega), if_neg hne,
      item_descriptor_of_value, hdup]
  · simp [libpff_item_tree_create, libpff_item_tree_create_node,
      libpff_item_tree_create_sub_nodes, libpff_item_tree_create_leaf_node,
      libfdata_tree_node_get_number_of_sub_nodes, libfdata_tree_node_is_deleted,
      libfdata_tree_node_is_leaf, libfdata_tree_node_get_node_value,
      libfdata_tree_node_get_sub_node_by_index,
      libpff_index_tree_get_leaf_node_by_identifier, index_tree_find_leaf,
      index_tree_find_leaf_list, find_insert_node, find_insert_list,
      insert_sorted_unique, item_descriptor_of_value, mk_leaf, mk_inner, desc,
      cursor_S4, S4_result, UINT32_MAX, LIBPFF_MAXIMUM_ITEM_TREE_RECURSION_DEPTH]

theorem chain_leaves_length (n : Nat) : ∀ i, (chain_leaves i n).length = n := by
  induction n with
  | zero => intro i; rfl
  | succ n ih => intro i; simp [chain_leaves, ih]

theorem chain_leaves_get (n : Nat) :
    ∀ i j, j < n →
      (chain_leaves i n).get? j = some (mk_leaf (i + j) (i + j - 1)) := by
  induction n with
  | zero => intro i j h; omega
  | succ n ih =>
      intro i j hj
      cases j with
      | zero => simp [chain_leaves]
      | succ j =>
          simp only [chain_leaves, List.get?_cons_succ]
          rw [ih (i + 1) j (by omega)]
          have h1 : i + 1 + j = i + (j + 1) := by omega
          rw [h1]

theorem chain_find_insert (n : Nat) :
    ∀ i depth, depth + n ≤ LIBPFF_MAXIMUM_ITEM_TREE_RECURSION_DEPTH →
      find_insert_node (i + n) (desc (i + n + 1)) (chain_from i n) depth =
        .ok (some (some (chain_from i (n + 1)))) := by
  induction n with
  | zero =>
      intro i depth hd
      rw [maxdepth_eq] at hd
      simp only [Nat.add_zero, chain_from]
      simp only [find_insert_node]
      rw [if_neg (by rw [maxdepth_eq]; omega)]
      rw [if_pos (by simp [desc])]
      simp [insert_sorted_unique, chain_from]
  | succ n ih =>
      intro i depth hd
      rw [maxdepth_eq] at hd
      have hpid : i + (n + 1) = i + 1 + n := by omega
      rw [hpid]
      simp only [chain_from]
      simp only [find_insert_node]
      rw [if_neg (by rw [maxdepth_eq]; omega)]
      rw [if_neg (by simp [desc]; omega)]
      simp only [tree_node_sub_nodes_eq, tree_node_value_eq]
      simp only [find_insert_list]
      rw [ih (i + 1) (depth + 1) (by rw [maxdepth_eq]; omega)]
      simp [chain_from]

theorem chain_build_loop :
    ∀ r idx, 1 ≤ idx → idx + r = 257 →
      libpff_item_tree_create_sub_nodes cursor_chain257 256
          (mk_inner (mk_leaf 1 1 :: chain_leaves 2 256)) r idx
          ⟨TreeNode.node (desc 0) [chain_from 1 (idx - 1)], some (desc 1), []⟩ =
        .ok chain_result := by
  intro r
  induction r with
  | zero =>
      intro idx h1 h2
      obtain rfl : idx = 257 := by omega
      simp only [libpff_item_tree_create_sub_nodes]
      norm_num [chain_result]
  | succ r ih =>
      intro idx h1 h2
      have hidx256 : idx ≤ 256 := by omega
      obtain ⟨j, rfl⟩ : ∃ j, idx = j + 1 := ⟨idx - 1, by omega⟩
      have hget : libfdata_tree_node_get_sub_node_by_index
          (mk_inner (mk_leaf 1 1 :: chain_leaves 2 256)) (j + 1) =
          .ok (mk_leaf (j + 1 + 1) (j + 1)) := by
        simp only [libfdata_tree_node_get_sub_node_by_index, mk_inner,
          idx_node_data_eq, idx_node_sub_nodes_eq]
        rw [if_neg (by simp)]
        rw [List.get?_cons_succ]
        rw [chain_leaves_get 256 2 j (by omega)]
        have e1 : 2 + j = j + 1 + 1 := by omega
        rw [e1]
        norm_num
      have hfi : find_insert_node (j + 1) (desc (j + 1 + 1))
          (TreeNode.node (desc 0) [chain_from 1 j]) 0 =
          .ok (some (some (TreeNode.node (desc 0) [chain_from 1 (j + 1)]))) := by
        simp only [find_insert_node]
        rw [if_neg (by decide)]
        rw [if_neg (by simp [desc])]
        simp only [tree_node_sub_nodes_eq, tree_node_value_eq]
        simp only [find_insert_list]
        have hch := chain_find_insert j 1 1 (by rw [maxdepth_eq]; omega)
        have e1 : 1 + j = j + 1 := by omega
        rw [e1] at hch
        simp only [Nat.zero_add]
        rw [hch]
      have hnode : libpff_item_tree_create_node cursor_chain257 256
          (mk_leaf (j + 1 + 1) (j + 1))
          ⟨TreeNode.node (desc 0) [chain_from 1 j], some (desc 1), []⟩ =
          .ok ⟨TreeNode.node (desc 0) [chain_from 1 (j + 1)], some (desc 1), []⟩ := by
        simp only [desc] at hfi
        simp [libpff_item_tree_create_node, libpff_item_tree_create_leaf_node,
          libfdata_tree_node_get_number_of_sub_nodes, libfdata_tree_node_is_deleted,
          libfdata_tree_node_is_leaf, libfdata_tree_node_get_node_value,
          mk_leaf, item_descriptor_of_value, desc, hfi,
          (show ¬ (UINT32_MAX < j + 1 + 1) by simp [UINT32_MAX]; omega),
          (show ¬ (j + 1 + 1 = j + 1) by omega)]
      simp only [libpff_item_tree_create_sub_nodes, Nat.add_sub_cancel, hget, hnode]
      have := ih (j + 1 + 1) (by omega) (by omega)
      simpa using this

theorem chain_build : libpff_item_tree_create cursor_chain257 = .ok chain_result := by
  have hfirst : libpff_item_tree_create_node cursor_chain257 256 (mk_leaf 1 1)
      ⟨TreeNode.node ⟨0, 0, 0, false⟩ [], none, []⟩ =
      .ok ⟨TreeNode.node (desc 0) [chain_from 1 0], some (desc 1), []⟩ := by
    simp [libpff_item_tree_create_node, libpff_item_tree_create_leaf_node,
      libfdata_tree_node_get_number_of_sub_nodes, libfdata_tree_node_is_deleted,
      libfdata_tree_node_is_leaf, libfdata_tree_node_get_node_value,
      mk_leaf, item_descriptor_of_value, desc, chain_from, insert_sorted_unique,
      UINT32_MAX]
  have hnum : libfdata_tree_node_get_number_of_sub_nodes
      (mk_inner (mk_leaf 1 1 :: chain_leaves 2 256)) = .ok 257 := by
    simp [libfdata_tree_node_get_number_of_sub_nodes, mk_inner,
      chain_leaves_length]
  have hstep : ∀ (rem : Nat) (st st' : BuildState),
      libpff_item_tree_create_node cursor_chain257 256 (mk_leaf 1 1) st = .ok st' →
      libpff_item_tree_create_sub_nodes cursor_chain257 256
          (mk_inner (mk_leaf 1 1 :: chain_leaves 2 256)) (rem + 1) 0 st =
        libpff_item_tree_create_sub_nodes cursor_chain257 256
          (mk_inner (mk_leaf 1 1 :: chain_leaves 2 256)) rem 1 st' := by
    intro rem st st' h
    simp only [libpff_item_tree_create_sub_nodes]
    simp [libfdata_tree_node_get_sub_node_by_index, mk_inner, h]
  have hroot : cursor_chain257.root = mk_inner (mk_leaf 1 1 :: chain_leaves 2 256) := rfl
  have hdel : libfdata_tree_node_is_deleted
      (mk_inner (mk_leaf 1 1 :: chain_leaves 2 256)) = .ok false := rfl
  have hleaf : libfdata_tree_node_is_leaf
      (mk_inner (mk_leaf 1 1 :: chain_leaves 2 256)) = .ok false := rfl
  simp only [libpff_item_tree_create, hroot]
  simp only [libpff_item_tree_create_node, hnum, hdel, hleaf]
  rw [if_neg (show ¬ (LIBPFF_MAXIMUM_ITEM_TREE_RECURSION_DEPTH + 1 = 0) from by decide)]
  rw [show LIBPFF_MAXIMUM_ITEM_TREE_RECURSION_DEPTH + 1 - 1 = 256 from by decide]
  rw [show (257 : Nat) = 256 + 1 from by norm_num]
  rw [hstep 256 _ _ hfirst]
  have := chain_build_loop 256 1 (by omega) (by omega)
  simpa using this

theorem chain_contains (n : Nat) :
    ∀ i, tree_contains (i + n) (chain_from i n) = true := by
  induction n with
  | zero =>
      intro i
      simp [chain_from, tree_contains_node, desc]
  | succ n ih =>
      intro i
      simp only [chain_from, tree_contains_node, tree_contains_list_cons,
        tree_contains_list_nil]
      have := ih (i + 1)
      rw [show i + 1 + n = i + (n + 1) from by omega] at this
      simp [this]

theorem chain_search_deep (n : Nat) :
    ∀ i depth, depth + n = LIBPFF_MAXIMUM_ITEM_TREE_RECURSION_DEPTH + 1 →
      item_tree_node_search (chain_from i n) (i + n) Slot.unset depth =
        .error .outOfBounds := by
  induction n with
  | zero =>
      intro i depth hd
      rw [item_tree_node_search.eq_def]
      rw [if_pos (by rw [maxdepth_eq] at hd ⊢; omega)]
  | succ n ih =>
      intro i depth hd
      simp only [chain_from]
      rw [item_tree_node_search.eq_def]
      rw [if_neg (by rw [maxdepth_eq] at hd ⊢; omega)]
      rw [if_neg (by simp [desc]; try omega)]
      simp only [tree_node_sub_nodes_eq]
      simp only [item_tree_node_search_list]
      have := ih (i + 1) (depth + 1) (by omega)
      rw [show i + 1 + n = i + (n + 1) from by omega] at this
      rw [this]

/-- C7 counterexample: the original claim's universal clause — for every
descriptor identifier present in a built tree, the search returns a node
with that identifier — fails on the 257-leaf parent chain: the build
succeeds (the parent search for id 256 passes the depth check at depth
256, so the child hangs at depth 257), the built tree contains
descriptor 257, yet searching for 257 fails with the out-of-bounds
error before the identifier is ever compared. -/
theorem claim_C7_counterexample :
    libpff_item_tree_create cursor_chain257 = .ok chain_result ∧
    tree_contains 257 chain_result.tree = true ∧
    item_tree_node_search chain_result.tree 257 Slot.unset 0 =
      .error .outOfBounds := by
  refine ⟨chain_build, ?_, ?_⟩
  · show tree_contains 257 (TreeNode.node (desc 0) [chain_from 1 256]) = true
    simp only [tree_contains_node, tree_contains_list_cons, tree_contains_list_nil]
    have := chain_contains 256 1
    rw [show (1 : Nat) + 256 = 257 from by norm_num] at this
    simp [this]
  · show item_tree_node_search (TreeNode.node (desc 0) [chain_from 1 256]) 257
      Slot.unset 0 = .error .outOfBounds
    rw [item_tree_node_search.eq_def]
    rw [if_neg (by decide), if_neg (by simp [desc])]
    simp only [tree_node_sub_nodes_eq]
    simp only [item_tree_node_search_list]
    have := chain_search_deep 256 1 1 (by rw [maxdepth_eq])
    rw [show (1 : Nat) + 256 = 257 from by norm_num] at this
    rw [this]

theorem search_ok_of_height : ∀ k : Nat,
    (∀ depth (t : TreeNode) (id : Nat), tree_height_le k t = true →
       depth + k ≤ LIBPFF_MAXIMUM_ITEM_TREE_RECURSION_DEPTH + 1 →
       ∃ r, item_tree_node_search t id Slot.unset depth = .ok r) ∧
    (∀ depth (l : List TreeNode) (id : Nat), l.all (tree_height_le k) = true →
       depth + k ≤ LIBPFF_MAXIMUM_ITEM_TREE_RECURSION_DEPTH + 1 →
       ∃ r, item_tree_node_search_list l id Slot.unset depth = .ok r) := by
  intro k
  induction k with
  | zero =>
      constructor
      · intro depth t id hh hd
        simp [tree_height_le] at hh
      · intro depth l id hh hd
        cases l with
        | nil => exact ⟨(false, Slot.unset), by simp [item_tree_node_search_list]⟩
        | cons c cs => simp [tree_height_le] at hh
  | succ k ih =>
      have hnode : ∀ depth (t : TreeNode) (id : Nat),
          tree_height_le (k + 1) t = true →
          depth + (k + 1) ≤ LIBPFF_MAXIMUM_ITEM_TREE_RECURSION_DEPTH + 1 →
          ∃ r, item_tree_node_search t id Slot.unset depth = .ok r := by
        intro depth t id hh hd
        obtain ⟨v, cs⟩ := t
        rw [maxdepth_eq] at hd
        rw [item_tree_node_search.eq_def]
        rw [if_neg (by rw [maxdepth_eq]; omega)]
        by_cases hid : (TreeNode.node v cs).value.descriptor_identifier = id
        · rw [if_pos hid]
          exact ⟨(true, .set (TreeNode.node v cs)), rfl⟩
        · rw [if_neg hid]
          simp only [tree_node_sub_nodes_eq]
          exact ih.2 (depth + 1) cs id (by simpa [tree_height_le] using hh)
            (by rw [maxdepth_eq]; omega)
      refine ⟨hnode, ?_⟩
      intro depth l id hh hd
      induction l with
      | nil => exact ⟨(false, Slot.unset), by simp [item_tree_node_search_list]⟩
      | cons c cs ihl =>
          simp only [List.all_cons, Bool.and_eq_true] at hh
          obtain ⟨r1, hr1⟩ := hnode depth c id hh.1 hd
          rcases ((search_spec (LIBPFF_MAXIMUM_ITEM_TREE_RECURSION_DEPTH + 1)).1
              depth (by omega) c id r1).1 hr1 with ⟨n, _, hr⟩ | ⟨_, hr⟩
          · subst hr
            exact ⟨(true, .set n), by simp only [item_tree_node_search_list, hr1]⟩
          · subst hr
            obtain ⟨r2, hr2⟩ := ihl hh.2
            exact ⟨r2, by simp only [item_tree_node_search_list, hr1, hr2]⟩

/-- C7 (amended): the search `libpff_item_tree_get_tree_node_by_identifier`
(modelled by `item_tree_node_search` starting at depth 0 with an empty
output slot) is a depth-first pre-order search: whenever it returns
without error, it returns exactly the first pre-order match
(`preorder_find`); every identifier contained in the tree has a
pre-order match carrying that identifier; searching a tree whose root
carries descriptor 0 (the synthetic root of every built tree) for id 0
returns that root itself; and for every identifier present in a tree all
of whose nodes lie within the search's recursion bound (depth at most
256), the search does return a node carrying that identifier.  The
original claim's unrestricted universal fails for a node placed at
depth 257 by a successful build, where the search errors instead — see
the counterexample. -/
theorem claim_C7_preorder_search :
    (∀ (t : TreeNode) (id : Nat) (r : Bool × Slot),
       item_tree_node_search t id Slot.unset 0 = .ok r →
       ((∃ n, preorder_find id t = some n ∧ r = (true, Slot.set n)) ∨
        (preorder_find id t = none ∧ r = (false, Slot.unset)))) ∧
    (∀ (t : TreeNode) (id : Nat), tree_contains id t = true →
       ∃ n, preorder_find id t = some n ∧ n.value.descriptor_identifier = id) ∧
    (∀ t : TreeNode, t.value.descriptor_identifier = 0 →
       item_tree_node_search t 0 Slot.unset 0 = .ok (true, Slot.set t)) ∧
    (∀ (t : TreeNode) (id : Nat),
       tree_height_le (LIBPFF_MAXIMUM_ITEM_TREE_RECURSION_DEPTH + 1) t = true →
       tree_contains id t = true →
       ∃ n, item_tree_node_search t id Slot.unset 0 = .ok (true, Slot.set n) ∧
         n.value.descriptor_identifier = id) := by
  refine ⟨?_, ?_, ?_, ?_⟩
  · intro t id r h
    exact ((search_spec (LIBPFF_MAXIMUM_ITEM_TREE_RECURSION_DEPTH + 1)).1 0
      (by omega) t id r).1 h
  · intro t id hc
    rcases (tree_contains_preorder id).1 t hc with ⟨n, hn⟩
    exact ⟨n, hn, (preorder_find_value id).1 t n hn⟩
  · intro t hid
    obtain ⟨v, cs⟩ := t
    rw [item_tree_node_search.eq_def]
    rw [if_neg (by rw [maxdepth_eq]; omega)]
    simp only [tree_node_value_eq] at hid
    rw [if_pos (by simpa using hid)]
  · intro t id hh hc
    obtain ⟨r, hr⟩ :=
      (search_ok_of_height (LIBPFF_MAXIMUM_ITEM_TREE_RECURSION_DEPTH + 1)).1 0 t id
        hh (by omega)
    rcases ((search_spec (LIBPFF_MAXIMUM_ITEM_TREE_RECURSION_DEPTH + 1)).1 0
        (by omega) t id r).1 hr with ⟨n, hn, hreq⟩ | ⟨hnone, _⟩
    · subst hreq
      exact ⟨n, hr, (preorder_find_value id).1 t n hn⟩
    · rcases (tree_contains_preorder id).1 t hc with ⟨m, hm⟩
      rw [hnone] at hm
      cases hm

/-- C8: the build is deterministic in its input: the model is a pure
function of the cursor, so running it twice on equal cursors (each time
from the freshly created synthetic-root state) gives node-by-node equal
trees, orphan lists and root-folder handles.  The underlying reason the
result does not depend on the order in which read-aheads materialize
nodes is that sorted-unique insertion of distinct descriptors commutes
(up to the duplicate-discard, which is also order-independent). -/
theorem claim_C8_build_deterministic :
    (∀ c1 c2 : Cursor, c1 = c2 →
       libpff_item_tree_create c1 = libpff_item_tree_create c2) ∧
    (∀ (a b : ItemDescriptor) (l : List TreeNode),
       a.descriptor_identifier ≠ b.descriptor_identifier →
       (insert_sorted_unique a l).bind (insert_sorted_unique b) =
         (insert_sorted_unique b l).bind (insert_sorted_unique a)) := by
  constructor
  · intro c1 c2 h
    rw [h]
  · intro a b l hab
    exact insert_sorted_unique_comm a b hab l

/-- C9 counterexample: the claim says a null output parameter makes
`tree_find` fail for every tree and every searched id.  On the code, the
null/already-set checks sit inside the identifier-match branch, so
searching a tree that does not contain the id returns NotFound (0) with
no error even though the output parameter is NULL: here the one-node
tree with descriptor 0 searched for id 5. -/
theorem claim_C9_counterexample :
    ¬ (∀ (t : Option TreeNode) (id : Nat),
        ∃ e, libpff_item_tree_get_tree_node_by_identifier t id Slot.null 0 =
          .error e) := by
  intro hall
  rcases hall (some (TreeNode.node (desc 0) [])) 5 with ⟨e, he⟩
  have hok : libpff_item_tree_get_tree_node_by_identifier
      (some (TreeNode.node (desc 0) [])) 5 Slot.null 0 = .ok (false, Slot.null) := by
    simp only [libpff_item_tree_get_tree_node_by_identifier]
    rw [item_tree_node_search.eq_def]
    rw [if_neg (by rw [maxdepth_eq]; omega), if_neg (by simp [desc])]
    simp [item_tree_node_search_list]
  rw [hok] at he
  cases he

/-- C9 (amended): a null tree is a fatal error for every searched id and
output slot; a null or already-set output parameter is a fatal error
whenever a matching node is encountered (in particular when the root
matches), and with a null output parameter the search can never return
Found — but a search that encounters no match returns NotFound without
validating the output parameter.  `node_find_child`
(`libpff_item_tree_get_sub_node_by_identifier`) validates its node and
output arguments up front, before scanning. -/
theorem claim_C9_navigation_argument_validation :
    (∀ (id : Nat) (slot : Slot) (depth : Nat),
       libpff_item_tree_get_tree_node_by_identifier none id slot depth =
         .error .invalidArgument) ∧
    (∀ (v : ItemDescriptor) (cs : List TreeNode) (id : Nat) (depth : Nat),
       depth ≤ LIBPFF_MAXIMUM_ITEM_TREE_RECURSION_DEPTH →
       v.descriptor_identifier = id →
       item_tree_node_search (TreeNode.node v cs) id Slot.null depth =
           .error .invalidArgument ∧
         ∀ x, item_tree_node_search (TreeNode.node v cs) id (Slot.set x) depth =
           .error .valueAlreadySet) ∧
    (∀ (t : TreeNode) (id : Nat) (r : Bool × Slot),
       item_tree_node_search t id Slot.null 0 = .ok r → r = (false, Slot.null)) ∧
    (∀ (id : Nat) (slot : Slot),
       libpff_item_tree_get_sub_node_by_identifier none id slot =
         .error .invalidArgument) ∧
    (∀ (t : TreeNode) (id : Nat),
       libpff_item_tree_get_sub_node_by_identifier (some t) id Slot.null =
           .error .invalidArgument ∧
         ∀ x, libpff_item_tree_get_sub_node_by_identifier (some t) id (Slot.set x) =
           .error .valueAlreadySet) := by
  refine ⟨?_, ?_, ?_, ?_, ?_⟩
  · intro id slot depth
    rfl
  · intro v cs id depth hd hv
    constructor
    · rw [item_tree_node_search.eq_def]
      rw [if_neg (by omega), if_pos (by simpa using hv)]
    · intro x
      rw [item_tree_node_search.eq_def]
      rw [if_neg (by omega), if_pos (by simpa using hv)]
  · intro t id r h
    exact (((search_spec (LIBPFF_MAXIMUM_ITEM_TREE_RECURSION_DEPTH + 1)).1 0
      (by omega) t id r).2 h).1
  · intro id slot
    rfl
  · intro t id
    exact ⟨rfl, fun x => rfl⟩

theorem claim_C2_cursor_io_tolerance_witness :
    libpff_item_tree_create_node ⟨mk_inner [], []⟩ 1
        (IdxNode.node ⟨true, false, false, false, false, false, ⟨0, 0, 0, 0⟩, []⟩ [])
        ⟨TreeNode.node (desc 0) [], none, []⟩ =
      .ok ⟨TreeNode.node (desc 0) [], none, []⟩ ∧
    libpff_item_tree_create_node ⟨mk_inner [], []⟩ 1
        (IdxNode.node ⟨false, true, false, false, false, false, ⟨0, 0, 0, 0⟩, []⟩ [])
        ⟨TreeNode.node (desc 0) [], none, []⟩ = .error .cursorIo ∧
    libpff_item_tree_create_node ⟨mk_inner [], []⟩ 1
        (IdxNode.node ⟨false, false, false, true, false, false, ⟨0, 0, 0, 0⟩, []⟩ [])
        ⟨TreeNode.node (desc 0) [], none, []⟩ = .error .cursorIo ∧
    libpff_item_tree_create_node ⟨mk_inner [], []⟩ 1
        (IdxNode.node ⟨false, false, false, false, true, true, ⟨0, 0, 0, 0⟩, []⟩ [])
        ⟨TreeNode.node (desc 0) [], none, []⟩ = .error .cursorIo ∧
    libpff_item_tree_create_node ⟨mk_inner [], []⟩ 1
        (IdxNode.node ⟨false, false, false, false, false, false, ⟨0, 0, 0, 0⟩, [0]⟩
          [mk_leaf 1 1])
        ⟨TreeNode.node (desc 0) [], none, []⟩ = .error .cursorIo ∧
    libpff_item_tree_create_leaf_node ⟨mk_inner [], [99]⟩ 1 (mk_leaf 7 99)
        ⟨TreeNode.node (desc 0) [], none, []⟩ = .error .cursorIo := by
  refine ⟨?_, ?_, ?_, ?_, ?_, ?_⟩
  · exact claim_C2_cursor_io_tolerance.1 _ 1 _ _ (by decide) rfl
  · exact claim_C2_cursor_io_tolerance.2.1 _ 1 _ _ (by decide) rfl rfl
  · exact claim_C2_cursor_io_tolerance.2.2.1 _ 1 _ _ (by decide) rfl rfl rfl rfl
  · exact claim_C2_cursor_io_tolerance.2.2.2.1 _ 1 _ _ (by decide) rfl rfl rfl rfl rfl rfl
  · exact claim_C2_cursor_io_tolerance.2.2.2.2.1 _ 1 _ _ _ _ (by decide)
      rfl rfl rfl rfl rfl (by decide)
  · exact claim_C2_cursor_io_tolerance.2.2.2.2.2 _ 1 _ _ ⟨7, 99, 0, 0⟩ (by decide)
      rfl (by decide) (by decide)
      (by simp [find_insert_node, find_insert_list, insert_sorted_unique,
        item_descriptor_of_value, desc, LIBPFF_MAXIMUM_ITEM_TREE_RECURSION_DEPTH])
      (by decide)

theorem claim_C3_recursion_depth_bound_witness :
    item_tree_node_search (TreeNode.node (desc 0) []) 0 Slot.unset 257 =
      .error .outOfBounds ∧
    item_tree_node_search (TreeNode.node (desc 0) []) 0 Slot.unset 256 ≠
      .error .outOfBounds ∧
    libpff_item_tree_create_node ⟨mk_inner [], []⟩ 1
        (IdxNode.node ⟨false, false, true, false, false, false, ⟨0, 0, 0, 0⟩, []⟩ [])
        ⟨TreeNode.node (desc 0) [], none, []⟩ =
      .ok ⟨TreeNode.node (desc 0) [], none, []⟩ := by
  refine ⟨?_, ?_, ?_⟩
  · exact claim_C3_recursion_depth_bound.2.2.1 _ 0 _ 257 (by decide)
  · exact claim_C3_recursion_depth_bound.2.2.2.1 (desc 0) 0 Slot.unset 256 (by decide)
  · exact claim_C3_recursion_depth_bound.2.2.2.2 _ _ _ rfl rfl rfl

theorem claim_C4_orphan_handling_witness :
    libpff_item_tree_create_leaf_node ⟨mk_inner [], []⟩ 1 (mk_leaf 7 99)
        ⟨TreeNode.node (desc 0) [], none, []⟩ =
      .ok ⟨TreeNode.node (desc 0) [], none,
           [TreeNode.node (item_descriptor_of_value ⟨7, 99, 0, 0⟩) []]⟩ := by
  exact claim_C4_orphan_handling.1 _ 1 _ _ ⟨7, 99, 0, 0⟩ (by decide) rfl
    (by decide) (by decide)
    (by simp [find_insert_node, find_insert_list, insert_sorted_unique,
      item_descriptor_of_value, desc, LIBPFF_MAXIMUM_ITEM_TREE_RECURSION_DEPTH])
    (by simp [libpff_index_tree_get_leaf_node_by_identifier, index_tree_find_leaf,
      index_tree_find_leaf_list, mk_inner])

theorem claim_C5_duplicate_root_witness :
    libpff_item_tree_create_leaf_node ⟨mk_inner [], []⟩ 1 (mk_leaf 2 2)
        ⟨TreeNode.node (desc 0) [TreeNode.node (desc 1) []], some (desc 1), []⟩ =
      .error .valueAlreadySet ∧
    (BuildState.root_folder
        ⟨TreeNode.node (desc 0) [TreeNode.node (desc 1) []], some (desc 1), []⟩) =
      some (desc 1) := by
  constructor
  · exact claim_C5_duplicate_root.1 _ 1 _ _ ⟨2, 2, 0, 0⟩ (desc 1) (by decide) rfl
      (by decide) rfl rfl
  · exact claim_C5_duplicate_root.2.1 ⟨mk_inner [], []⟩ 1
      (IdxNode.node ⟨false, false, true, false, false, false, ⟨0, 0, 0, 0⟩, []⟩ [])
      ⟨TreeNode.node (desc 0) [TreeNode.node (desc 1) []], some (desc 1), []⟩
      ⟨TreeNode.node (desc 0) [TreeNode.node (desc 1) []], some (desc 1), []⟩
      (desc 1)
      (by simp [libpff_item_tree_create_node,
        libfdata_tree_node_get_number_of_sub_nodes, libfdata_tree_node_is_deleted])
      rfl

theorem claim_C6_duplicate_child_discarded_witness :
    insert_sorted_unique (desc 5) [TreeNode.node (desc 5) []] = none ∧
    libpff_item_tree_create_leaf_node ⟨mk_inner [], []⟩ 1 (mk_leaf 5 1)
        ⟨TreeNode.node (desc 0) [TreeNode.node (desc 1) [TreeNode.node (desc 5) []]],
         some (desc 1), []⟩ =
      .ok ⟨TreeNode.node (desc 0) [TreeNode.node (desc 1) [TreeNode.node (desc 5) []]],
           some (desc 1), []⟩ := by
  constructor
  · exact (claim_C6_duplicate_child_discarded.1 (desc 5) [TreeNode.node (desc 5) []]
      (by decide)).mp ⟨TreeNode.node (desc 5) [], List.mem_cons_self _ _, rfl⟩
  · exact claim_C6_duplicate_child_discarded.2.1 _ 1 _ _ ⟨5, 1, 0, 0⟩ (by decide) rfl
      (by decide) (by decide)
      (by simp [find_insert_node, find_insert_list, insert_sorted_unique,
        item_descriptor_of_value, desc, LIBPFF_MAXIMUM_ITEM_TREE_RECURSION_DEPTH])

theorem claim_C7_preorder_search_witness :
    ((∃ n, preorder_find 3 (TreeNode.node (desc 0) [TreeNode.node (desc 3) []]) =
        some n ∧
        ((true, Slot.set (TreeNode.node (desc 3) [])) : Bool × Slot) =
          (true, Slot.set n)) ∨
      (preorder_find 3 (TreeNode.node (desc 0) [TreeNode.node (desc 3) []]) = none ∧
        ((true, Slot.set (TreeNode.node (desc 3) [])) : Bool × Slot) =
          (false, Slot.unset))) ∧
    (∃ n, preorder_find 3 (TreeNode.node (desc 0) [TreeNode.node (desc 3) []]) =
        some n ∧ n.value.descriptor_identifier = 3) ∧
    item_tree_node_search (TreeNode.node (desc 0) [TreeNode.node (desc 3) []]) 0
        Slot.unset 0 =
      .ok (true, Slot.set (TreeNode.node (desc 0) [TreeNode.node (desc 3) []])) ∧
    (∃ n, item_tree_node_search (TreeNode.node (desc 0) [TreeNode.node (desc 3) []])
        3 Slot.unset 0 = .ok (true, Slot.set n) ∧
      n.value.descriptor_identifier = 3) := by
  refine ⟨?_, ?_, ?_, ?_⟩
  · exact claim_C7_preorder_search.1 _ 3 _
      (by simp [item_tree_node_search, item_tree_node_search_list, desc,
        LIBPFF_MAXIMUM_ITEM_TREE_RECURSION_DEPTH])
  · exact claim_C7_preorder_search.2.1 _ 3
      (by simp [tree_contains_node, tree_contains_list_cons, tree_contains_list_nil,
        desc])
  · exact claim_C7_preorder_search.2.2.1 _ rfl
  · exact claim_C7_preorder_search.2.2.2 _ 3 (by decide)
      (by simp [tree_contains_node, tree_contains_list_cons, tree_contains_list_nil,
        desc])

theorem claim_C8_build_deterministic_witness :
    libpff_item_tree_create cursor_S1 = libpff_item_tree_create cursor_S1 ∧
    (insert_sorted_unique (desc 1) []).bind (insert_sorted_unique (desc 2)) =
      (insert_sorted_unique (desc 2) []).bind (insert_sorted_unique (desc 1)) := by
  constructor
  · exact claim_C8_build_deterministic.1 cursor_S1 cursor_S1 rfl
  · exact claim_C8_build_deterministic.2 (desc 1) (desc 2) [] (by decide)

theorem claim_C9_navigation_argument_validation_witness :
    item_tree_node_search (TreeNode.node (desc 5) []) 5 Slot.null 0 =
      .error .invalidArgument ∧
    item_tree_node_search (TreeNode.node (desc 5) []) 5
        (Slot.set (TreeNode.node (desc 9) [])) 0 = .error .valueAlreadySet ∧
    ((false, Slot.null) : Bool × Slot) = (false, Slot.null) := by
  refine ⟨?_, ?_, ?_⟩
  · exact (claim_C9_navigation_argument_validation.2.1 (desc 5) [] 5 0
      (by decide) rfl).1
  · exact (claim_C9_navigation_argument_validation.2.1 (desc 5) [] 5 0
      (by decide) rfl).2 (TreeNode.node (desc 9) [])
  · exact claim_C9_navigation_argument_validation.2.2.1
      (TreeNode.node (desc 0) []) 5 (false, Slot.null)
      (by simp [item_tree_node_search, item_tree_node_search_list, desc,
        LIBPFF_MAXIMUM_ITEM_TREE_RECURSION_DEPTH])

end LibPff
